import Mathlib

/-!
Verification development for the `atrade1.py` interactive option client.

The Python strings handled by the program are ASCII, and are modelled as
`List Char`.  Python floats are modelled exactly: a float value (`PyFloat`)
is either the rational number a finite binary64 double denotes, a signed
infinity, or a NaN; each arithmetic step of the source is followed by `fl`,
IEEE-754 binary64 round-to-nearest-even rounding on rationals, with results
at or beyond the overflow threshold becoming infinities (subnormal
underflow, which none of the modelled magnitudes reaches, is not modelled).
Python `int()` on a float truncates toward zero and raises `OverflowError`
on an infinity and `ValueError` on NaN, so calls around it return a
three-valued outcome (`PyRet`): a value, `None`, or an escaped exception.
-/

/-! ### Decimal digit strings -/

/-- Numeric value of an ASCII digit character. -/
def charVal (c : Char) : ℕ := c.toNat - 48

/-- Value of a decimal digit string (left fold, like `int`/`float` on digits). -/
def valDigits (l : List Char) : ℕ := l.foldl (fun a c => 10 * a + charVal c) 0

/-- Two-digit zero-padded decimal rendering (for `strftime` fields `%y/%m/%d`,
whose values are at most 99). -/
def pad2 (n : ℕ) : List Char := [Nat.digitChar (n / 10), Nat.digitChar (n % 10)]

/-- Four-digit zero-padded decimal rendering (for `strftime` `%Y` in the pivot
range 1969-2068, where glibc prints exactly four digits). -/
def pad4 (n : ℕ) : List Char :=
  [Nat.digitChar (n / 1000), Nat.digitChar (n / 100 % 10),
   Nat.digitChar (n / 10 % 10), Nat.digitChar (n % 10)]

/-- Seven-digit zero-padded decimal rendering (for values below `10^7`). -/
def pad7 (n : ℕ) : List Char :=
  [Nat.digitChar (n / 1000000), Nat.digitChar (n / 100000 % 10),
   Nat.digitChar (n / 10000 % 10), Nat.digitChar (n / 1000 % 10),
   Nat.digitChar (n / 100 % 10), Nat.digitChar (n / 10 % 10),
   Nat.digitChar (n % 10)]

/-- Eight-digit zero-padded decimal rendering (for values below `10^8`). -/
def pad8 (n : ℕ) : List Char :=
  [Nat.digitChar (n / 10000000), Nat.digitChar (n / 1000000 % 10),
   Nat.digitChar (n / 100000 % 10), Nat.digitChar (n / 10000 % 10),
   Nat.digitChar (n / 1000 % 10), Nat.digitChar (n / 100 % 10),
   Nat.digitChar (n / 10 % 10), Nat.digitChar (n % 10)]

/-- Fuelled unpadded decimal rendering of a natural number. -/
def natDigitsAux : ℕ → ℕ → List Char
  | 0, _ => []
  | f + 1, n =>
    if n < 10 then [Nat.digitChar n]
    else natDigitsAux f (n / 10) ++ [Nat.digitChar (n % 10)]

/-- Unpadded decimal rendering of a natural number. -/
def natDigits (n : ℕ) : List Char := natDigitsAux (n + 1) n

/-! ### Exact model of IEEE-754 binary64 rounding

`fl x` is the binary64 double nearest to the rational `x` (ties to even),
for values in the normal range; `fl` is what every Python float literal,
division and multiplication of the source produces.  The binade exponent is
computed with fuelled, kernel-reducible helpers. -/

/-- Integer power of two as a rational. -/
def pow2 (e : ℤ) : ℚ := if 0 ≤ e then ((2 : ℚ) ^ e.toNat) else ((2 : ℚ) ^ (-e).toNat)⁻¹

/-- Round a rational to the nearest integer, ties to even. -/
def rnd (x : ℚ) : ℤ :=
  if x - ⌊x⌋ < 1 / 2 then ⌊x⌋
  else if 1 / 2 < x - ⌊x⌋ then ⌊x⌋ + 1
  else if ⌊x⌋ % 2 = 0 then ⌊x⌋ else ⌊x⌋ + 1

/-- Fuelled base-two logarithm on naturals. -/
def log2fuel : ℕ → ℕ → ℕ
  | 0, _ => 0
  | f + 1, n => if n < 2 then 0 else log2fuel f (n / 2) + 1

/-- Base-two logarithm of a natural number (`0` for `n < 2`). -/
def natLog2 (n : ℕ) : ℕ := log2fuel n n

/-- Fuelled count of doublings needed to bring a positive rational to `1`. -/
def clog2fuel : ℕ → ℚ → ℕ
  | 0, _ => 0
  | f + 1, q => if 1 ≤ q then 0 else clog2fuel f (2 * q) + 1

/-- Binade exponent of a positive rational. -/
def qlog2 (q : ℚ) : ℤ :=
  if 1 ≤ q then (natLog2 ⌊q⌋.toNat : ℤ) else -(clog2fuel q.den q : ℤ)

/-- Binary64 rounding of a positive rational. -/
def flPos (x : ℚ) : ℚ :=
  (rnd (x * pow2 (52 - qlog2 x)) : ℚ) * pow2 (qlog2 x - 52)

/-- Binary64 round-to-nearest-even on rationals (normal range). -/
def fl (x : ℚ) : ℚ := if x = 0 then 0 else if x < 0 then -flPos (-x) else flPos x

/-- Python `int()` on a finite float: truncation toward zero. -/
def truncQ (q : ℚ) : ℤ := if q < 0 then ⌈q⌉ else ⌊q⌋

/-- A Python float value: a finite binary64 number given by its exact rational
value, an infinity (the flag is the sign, `true` for negative), or a NaN. -/
inductive PyFloat where
  | finite : ℚ → PyFloat
  | inf : Bool → PyFloat
  | nan : PyFloat
deriving DecidableEq, Repr

/-- The binary64 overflow threshold: round-to-nearest-even sends a real to an
infinity exactly when its magnitude is at least `2^1024 - 2^970`, half an ulp
above the largest finite double.  (Computed in `ℕ` and cast, which the kernel
evaluates fast.) -/
def ovfl : ℚ := ((2 ^ 1024 - 2 ^ 970 : ℕ) : ℚ)

/-- Binary64 rounding with overflow: magnitudes below the threshold round with
`fl` to a finite double, the rest become infinities. -/
def flF (x : ℚ) : PyFloat :=
  if x ≤ -ovfl then PyFloat.inf true
  else if ovfl ≤ x then PyFloat.inf false
  else PyFloat.finite (fl x)

/-- Outcome of Python `int()` on a float. -/
inductive PyIntOut where
  | ok : ℤ → PyIntOut
  | valueError : PyIntOut
  | overflowError : PyIntOut
deriving DecidableEq, Repr

/-- Python `int()` on a float: truncation toward zero on finite values,
`OverflowError` on an infinity, `ValueError` on NaN. -/
def pyInt : PyFloat → PyIntOut
  | PyFloat.finite q => PyIntOut.ok (truncQ q)
  | PyFloat.inf _ => PyIntOut.overflowError
  | PyFloat.nan => PyIntOut.valueError

/-- Python float multiplication by the float `1000` (itself exact), as in
`float(strike) * 1000`: a finite value rounds and can overflow silently to an
infinity; infinities and NaN propagate. -/
def pyMul1000 : PyFloat → PyFloat
  | PyFloat.finite q => flF (q * 1000)
  | PyFloat.inf s => PyFloat.inf s
  | PyFloat.nan => PyFloat.nan

/-- Python float division by the float `1000.0` (itself exact), as in
`float(strike_price_str) / 1000.0`: a finite value rounds (the quotient's
magnitude only shrinks, so it cannot overflow); infinities and NaN
propagate. -/
def pyDiv1000 : PyFloat → PyFloat
  | PyFloat.finite q => flF (q / 1000)
  | PyFloat.inf s => PyFloat.inf s
  | PyFloat.nan => PyFloat.nan

/-- Outcome of a Python call whose body can return a value, return `None`, or
let an exception escape to the caller. -/
inductive PyRet (α : Type) where
  | val : α → PyRet α
  | none : PyRet α
  | raised : PyRet α
deriving DecidableEq, Repr

/-! ### Python string primitives (ASCII fragment) -/

/-- ASCII decimal digit test; models both `str.isdigit` and the digit class of
the numeric grammars on the ASCII data the program handles. -/
def isDigitC (c : Char) : Bool := 48 ≤ c.toNat && c.toNat ≤ 57

/-- ASCII whitespace stripped by Python `float(str)`. -/
def isPySpace (c : Char) : Bool :=
  c.toNat = 32 || c.toNat = 9 || c.toNat = 10 || c.toNat = 13 || c.toNat = 11 || c.toNat = 12

/-- Python `str.strip()` on ASCII text. -/
def pyStrip (l : List Char) : List Char :=
  ((l.dropWhile isPySpace).reverse.dropWhile isPySpace).reverse

/-- Python `str.upper()` on one ASCII character. -/
def pyUpperChar (c : Char) : Char :=
  match c with
  | 'a' => 'A' | 'b' => 'B' | 'c' => 'C' | 'd' => 'D' | 'e' => 'E' | 'f' => 'F'
  | 'g' => 'G' | 'h' => 'H' | 'i' => 'I' | 'j' => 'J' | 'k' => 'K' | 'l' => 'L'
  | 'm' => 'M' | 'n' => 'N' | 'o' => 'O' | 'p' => 'P' | 'q' => 'Q' | 'r' => 'R'
  | 's' => 'S' | 't' => 'T' | 'u' => 'U' | 'v' => 'V' | 'w' => 'W' | 'x' => 'X'
  | 'y' => 'Y' | 'z' => 'Z'
  | c => c

/-- Python `str.upper()` on ASCII text. -/
def pyUpper (l : List Char) : List Char := l.map pyUpperChar

/-- Python `str.lower()` on one ASCII character. -/
def pyLowerChar (c : Char) : Char :=
  match c with
  | 'A' => 'a' | 'B' => 'b' | 'C' => 'c' | 'D' => 'd' | 'E' => 'e' | 'F' => 'f'
  | 'G' => 'g' | 'H' => 'h' | 'I' => 'i' | 'J' => 'j' | 'K' => 'k' | 'L' => 'l'
  | 'M' => 'm' | 'N' => 'n' | 'O' => 'o' | 'P' => 'p' | 'Q' => 'q' | 'R' => 'r'
  | 'S' => 's' | 'T' => 't' | 'U' => 'u' | 'V' => 'v' | 'W' => 'w' | 'X' => 'x'
  | 'Y' => 'y' | 'Z' => 'z'
  | c => c

/-- Python `str.lower()` on ASCII text. -/
def pyLower (l : List Char) : List Char := l.map pyLowerChar

/-- Integer power of ten as a rational. -/
def qpow10 (e : ℤ) : ℚ := if 0 ≤ e then ((10 : ℚ) ^ e.toNat) else ((10 : ℚ) ^ (-e).toNat)⁻¹

/-- Continuation of a Python digit group after its leading digit: further
digits, where a single underscore is allowed between two digits only.
Returns the digits seen (underscores dropped) and the unconsumed rest. -/
def digitPartAux : List Char → List Char × List Char
  | [] => ([], [])
  | c :: rest =>
    if isDigitC c then
      let p := digitPartAux rest
      (c :: p.1, p.2)
    else if c = '_' then
      match rest with
      | c2 :: rest2 =>
        if isDigitC c2 then
          let p := digitPartAux rest2
          (c2 :: p.1, p.2)
        else ([], c :: rest)
      | [] => ([], [c])
    else ([], c :: rest)

/-- A Python `digitpart`: a leading digit, then digits with single underscores
between two digits; `none` when the input does not start with a digit.
Returns the digits (underscores dropped) and the unconsumed rest. -/
def digitPart (l : List Char) : Option (List Char × List Char) :=
  match l with
  | c :: rest =>
    if isDigitC c then
      some ((fun p => (c :: p.1, p.2)) (digitPartAux rest))
    else none
  | [] => none

/-- Optional exponent suffix of a Python float literal: `e`/`E`, an optional
sign, and a digit group that must consume the whole rest of the input. -/
def pyFloatExp (base : ℚ) (l : List Char) : Option ℚ :=
  match l with
  | [] => some base
  | c :: r =>
    if c = 'e' ∨ c = 'E' then
      match r with
      | [] => none
      | c2 :: r2 =>
        let sd : ℤ × List Char :=
          if c2 = '+' then (1, r2) else if c2 = '-' then (-1, r2) else (1, c2 :: r2)
        match digitPart sd.2 with
        | some (ds, rest) =>
          if rest = [] then some (base * qpow10 (sd.1 * (valDigits ds : ℤ)))
          else none
        | none => none
    else none

/-- Unsigned mantissa (digit group, optional point and fraction group,
optional exponent) of a Python float literal, with the underscore separators
`float` accepts. -/
def pyFloatMantissa (l : List Char) : Option ℚ :=
  match digitPart l with
  | some (ip, r1) =>
    match r1 with
    | '.' :: r2 =>
      match digitPart r2 with
      | some (fp, r3) =>
        pyFloatExp ((valDigits ip : ℚ) + (valDigits fp : ℚ) / 10 ^ fp.length) r3
      | none => pyFloatExp ((valDigits ip : ℚ)) r2
    | _ => pyFloatExp ((valDigits ip : ℚ)) r1
  | none =>
    match l with
    | '.' :: r2 =>
      match digitPart r2 with
      | some (fp, r3) => pyFloatExp ((valDigits fp : ℚ) / 10 ^ fp.length) r3
      | none => none
    | _ => none

/-- Python `float(str)`: strip whitespace, read an optional sign, then either
one of the case-insensitive special literals `inf`/`infinity`/`nan` or a
decimal mantissa, which is rounded to binary64 (a literal beyond the overflow
threshold gives an infinity, not an error); `none` when the conversion raises
`ValueError`. -/
def pyFloatVal (l : List Char) : Option PyFloat :=
  match pyStrip l with
  | [] => none
  | c :: rest =>
    let sb : Bool × List Char :=
      if c = '+' then (false, rest)
      else if c = '-' then (true, rest)
      else (false, c :: rest)
    if pyLower sb.2 = ['i', 'n', 'f'] ∨
        pyLower sb.2 = ['i', 'n', 'f', 'i', 'n', 'i', 't', 'y'] then
      some (PyFloat.inf sb.1)
    else if pyLower sb.2 = ['n', 'a', 'n'] then some PyFloat.nan
    else
      match pyFloatMantissa sb.2 with
      | none => none
      | some v => some (flF (if sb.1 then -v else v))

/-! ### Dates: `strptime`/`strftime` as used by the codec -/

/-- Gregorian leap-year rule (as in Python's `datetime`). -/
def isLeap (y : ℕ) : Bool := (y % 4 == 0 && y % 100 != 0) || y % 400 == 0

/-- Days in a month. -/
def daysInMonth (y m : ℕ) : ℕ :=
  if m = 2 then (if isLeap y then 29 else 28)
  else if m = 4 ∨ m = 6 ∨ m = 9 ∨ m = 11 then 30 else 31

/-- Two-digit year pivot of `strptime`'s `%y`: 00-68 map to 2000-2068 and
69-99 to 1969-1999. -/
def pivotYear (yy : ℕ) : ℕ := if yy ≤ 68 then 2000 + yy else 1900 + yy

/-- Day-of-month field accepted by `strptime`'s `%d`: one digit, two digits, or
a space followed by a nonzero digit (values are range-checked afterwards). -/
def dayField : List Char → Option ℕ
  | [c] => if isDigitC c then some (charVal c) else none
  | [a, b] =>
    if isDigitC a ∧ isDigitC b then some (10 * charVal a + charVal b)
    else if a = ' ' ∧ isDigitC b ∧ charVal b ≠ 0 then some (charVal b)
    else none
  | _ => none

/-- The ISO date string produced by `strftime("%Y-%m-%d")` for years in the
pivot range (glibc prints the year with exactly four digits there). -/
def isoOf (y m d : ℕ) : List Char := pad4 y ++ '-' :: (pad2 m ++ '-' :: pad2 d)

/-- `datetime.strptime(s, "%y%m%d").strftime("%Y-%m-%d")`, as used by
`parse_occ_symbol`: two-digit year, month and day fields (the day may use the
space form), value-checked against the pivot year's calendar. -/
def pyStrptimeYYMMDD (l : List Char) : Option (List Char) :=
  match l with
  | [c1, c2, c3, c4, c5, c6] =>
    if isDigitC c1 ∧ isDigitC c2 ∧ isDigitC c3 ∧ isDigitC c4 then
      let yy := 10 * charVal c1 + charVal c2
      let mm := 10 * charVal c3 + charVal c4
      let y := pivotYear yy
      match dayField [c5, c6] with
      | none => none
      | some dd =>
        if 1 ≤ mm ∧ mm ≤ 12 ∧ 1 ≤ dd ∧ dd ≤ daysInMonth y mm then
          some (isoOf y mm dd)
        else none
    else none
  | _ => none

/-- `datetime.strptime(s, "%Y-%m-%d")`, as used by `create_occ_symbol`: an
exactly-four-digit year, one-or-two-digit month, a day field, hyphens in
between, nothing else; value-checked against the calendar (`datetime` also
rejects year 0). -/
def pyStrptimeYMD (l : List Char) : Option (ℕ × ℕ × ℕ) :=
  let p1 := l.takeWhile (fun c => c != '-')
  let r1 := l.dropWhile (fun c => c != '-')
  match r1 with
  | '-' :: r2 =>
    let p2 := r2.takeWhile (fun c => c != '-')
    let r3 := r2.dropWhile (fun c => c != '-')
    match r3 with
    | '-' :: p3 =>
      if p1.length = 4 ∧ p1.all isDigitC ∧ 1 ≤ p2.length ∧ p2.length ≤ 2 ∧ p2.all isDigitC then
        match dayField p3 with
        | none => none
        | some d =>
          let y := valDigits p1
          let m := valDigits p2
          if 1 ≤ y ∧ 1 ≤ m ∧ m ≤ 12 ∧ 1 ≤ d ∧ d ≤ daysInMonth y m then some (y, m, d)
          else none
      else none
    | _ => none
  | _ => none

/-! ### The OCC symbol codec (`parse_occ_symbol` / `create_occ_symbol`) -/

/-- The scan in `parse_occ_symbol`: everything before the first digit is the
underlying, the rest starts at the first digit; `none` when no digit occurs
(the `for ... else` clause). -/
def splitAtFirstDigit : List Char → Option (List Char × List Char)
  | [] => none
  | c :: cs =>
    if isDigitC c then some ([], c :: cs)
    else
      match splitAtFirstDigit cs with
      | some (u, r) => some (c :: u, r)
      | none => none

/-- The dictionary returned by `parse_occ_symbol`. -/
structure ParsedOption where
  underlying : List Char
  expiration_date : List Char
  type : List Char
  strike_price : PyFloat
deriving DecidableEq, Repr

/-- `parse_occ_symbol` from `atrade1.py`: split at the first digit, read six
date characters, one type character and the remaining strike field; any
`ValueError`/`IndexError` yields `None`.  A type character other than `'C'`
is translated to `"put"`.  The strike is `float(strike_str) / 1000.0`, two
binary64 roundings. -/
def parse_occ_symbol (symbol : List Char) : Option ParsedOption :=
  match splitAtFirstDigit symbol with
  | none => none
  | some (underlying, rest) =>
    match rest.drop 6 with
    | [] => none
    | option_type :: strike_str =>
      match pyStrptimeYYMMDD (rest.take 6) with
      | none => none
      | some expiry =>
        match pyFloatVal strike_str with
        | none => none
        | some v =>
          some { underlying := underlying
                 expiration_date := expiry
                 type := if option_type = 'C' then ['c', 'a', 'l', 'l'] else ['p', 'u', 't']
                 strike_price := pyDiv1000 v }

/-- Python `f"{k:08d}"`: decimal rendering zero-padded to width 8, the sign
included in the width and longer values never truncated. -/
def formatInt08 (k : ℤ) : List Char :=
  if k < 0 then
    '-' :: (if (-k).toNat < 10000000 then pad7 (-k).toNat else natDigits (-k).toNat)
  else if k.toNat < 100000000 then pad8 k.toNat else natDigits k.toNat

/-- `create_occ_symbol` from `atrade1.py`, for a strike that is already a
Python float (`float(strike)` is then the identity): a date not accepted by
`strptime` returns `None`; the strike field is `f"{int(float(strike) * 1000):08d}"`,
where the `except ValueError` around it catches only a NaN strike (returning
`None`) while the `OverflowError` `int()` raises on an infinite product
escapes uncaught; then the type is upper-cased and required to be `C` or `P`,
and the underlying upper-cased. -/
def create_occ_symbolQ (underlying expiry_date option_type : List Char)
    (strike : PyFloat) : PyRet (List Char) :=
  match pyStrptimeYMD expiry_date with
  | Option.none => PyRet.none
  | some (y, m, d) =>
    let expiry := pad2 (y % 100) ++ pad2 m ++ pad2 d
    match pyInt (pyMul1000 strike) with
    | PyIntOut.overflowError => PyRet.raised
    | PyIntOut.valueError => PyRet.none
    | PyIntOut.ok k =>
      let strikeField := formatInt08 k
      let optType := pyUpper option_type
      if optType = ['C'] ∨ optType = ['P'] then
        PyRet.val (pyUpper underlying ++ expiry ++ optType ++ strikeField)
      else PyRet.none

/-- `create_occ_symbol` with the strike given as a string, as the tests call
it: `float(strike)` parses the literal, and its `ValueError` (checked after
the date, before the type) yields `None`. -/
def create_occ_symbol (underlying expiry_date option_type strike : List Char) :
    PyRet (List Char) :=
  match pyStrptimeYMD expiry_date with
  | Option.none => PyRet.none
  | some _ =>
    match pyFloatVal strike with
    | Option.none => PyRet.none
    | some v => create_occ_symbolQ underlying expiry_date option_type v

/-- Re-encoding of a decoded symbol, passing the parsed components back to
`create_occ_symbol` the way the monitor does (type `"call"` becomes `'C'`,
anything else `'P'`). -/
def reencode_occ_symbol (s : List Char) : PyRet (List Char) :=
  match parse_occ_symbol s with
  | Option.none => PyRet.none
  | some p =>
    create_occ_symbolQ p.underlying p.expiration_date
      (if p.type = ['c', 'a', 'l', 'l'] then ['C'] else ['P']) p.strike_price

/-! ### Strike selection (`atrade1_main`, step 5) -/

/-- Python `min(range(n), key=...)` body: fold keeping the first index whose
key is minimal (later indices replace only on strictly smaller keys). -/
def minIdxAux (key : ℕ → ℚ) : List ℕ → ℕ → ℕ
  | [], b => b
  | i :: is, b => minIdxAux key is (if key i < key b then i else b)

/-- `min(range(len(strikes)), key=lambda i: abs(strikes[i] - lastPrice))`. -/
def pyMinRange (key : ℕ → ℚ) (n : ℕ) : ℕ := minIdxAux key (List.range n) 0

/-- The suggested default strike of the main loop:
`sorted_strikes[min(range(len(sorted_strikes)), key=lambda i: abs(sorted_strikes[i] - last_price))]`,
over finite-double strikes and reference price: the subtraction is performed
in binary64, so each key is `|fl (strike - lastPrice)|` (taking the absolute
value is exact, and the difference of the modelled finite doubles stays in the
finite range). -/
def suggested_strike (strikes : List ℚ) (lastPrice : ℚ) : ℚ :=
  strikes.getD (pyMinRange (fun i => |fl (strikes.getD i 0 - lastPrice)|) strikes.length) 0

/-! ### Position intent and the round-trip trigger -/

/-- First-match lookup of the signed position quantity for a symbol, defaulting
to `0` (`atrade1_main`, step 7). -/
def lookupPositionQty (positions : List (String × ℚ)) (target : String) : ℚ :=
  match positions with
  | [] => 0
  | (sym, q) :: rest => if sym = target then q else lookupPositionQty rest target

/-- The position-intent classification computed before placement. -/
def computePositionIntent (action : Char) (currentPositionQty : ℚ) : String :=
  if action = 'B' ∧ currentPositionQty < 0 then "close"
  else if action = 'S' ∧ currentPositionQty > 0 then "close"
  else "open"

/-- The guard of the round-trip block in `place_and_monitor_order`:
`status == "FILLED" and position_intent == "open"`. -/
def runsRoundTrip (status : String) (positionIntent : String) : Bool :=
  status == "FILLED" && positionIntent == "open"

/-! ### JSON-shaped responses and the closing-order branch -/

/-- JSON-like values, enough for the Alpaca response dictionaries. -/
inductive JVal where
  | null : JVal
  | bool : Bool → JVal
  | num : ℚ → JVal
  | str : String → JVal
  | obj : List (String × JVal) → JVal

/-- First-match field lookup (Python dicts have unique keys). -/
def jLookup (fields : List (String × JVal)) (k : String) : Option JVal :=
  match fields with
  | [] => none
  | (k', v) :: rest => if k' = k then some v else jLookup rest k

/-- Python `d.get(k)` on a dictionary value. -/
def jGet (j : JVal) (k : String) : Option JVal :=
  match j with
  | JVal.obj fs => jLookup fs k
  | _ => none

/-- Python truthiness of a JSON value. -/
def pyTruthy (j : JVal) : Bool :=
  match j with
  | JVal.null => false
  | JVal.bool b => b
  | JVal.num q => decide (q ≠ 0)
  | JVal.str s => decide (s ≠ "")
  | JVal.obj fs => !fs.isEmpty

/-- Python truthiness of `d.get(k)` (where `None` is falsy). -/
def pyTruthyOpt : Option JVal → Bool
  | none => false
  | some j => pyTruthy j

/-- Lines 496-518 of `atrade1.py` up to the closing-price prompt: after an
opening fill the code reads `snapshots = chain_response.get("data", {})` (note:
not `...get("snapshots")`), looks the filled symbol up there, and requires a
`"quote"` key; returns `true` iff the prompt is reached. -/
def closingBranchReachesPrompt (chainResponse : JVal) (occSymbol : String) : Bool :=
  if pyTruthyOpt (jGet chainResponse "success") = false then false
  else
    let snapshots := (jGet chainResponse "data").getD (JVal.obj [])
    match jGet snapshots occSymbol with
    | none => false
    | some target =>
      if pyTruthy target = false then false
      else pyTruthyOpt (jGet target "quote")

/-- The monitoring loop's own quote read (lines 402-409):
`chain_response.get("data", {}).get("snapshots", {})` then
`.get(symbol, {}).get("latestQuote", {})`. -/
def monitorLatestQuote (chainResponse : JVal) (sym : String) : JVal :=
  let snapshots := ((jGet ((jGet chainResponse "data").getD (JVal.obj []))
    "snapshots").getD (JVal.obj []))
  (jGet ((jGet snapshots sym).getD (JVal.obj [])) "latestQuote").getD (JVal.obj [])

/-! ### The order monitor's adjust handler (`poll_order_status`) -/

/-- The mutable order-tracking record built by `place_and_monitor_order`. -/
structure TrackedOrder where
  id : String
  symbol : List Char
  quantity : ℚ
  side : String
  action : Char
  price : PyFloat
deriving DecidableEq, Repr

/-- Broker calls the adjust handler can issue, in order. -/
inductive ApiCall where
  | getOrder : String → ApiCall
  | getOptionChain : List Char → ApiCall
  | cancelOrder : String → ApiCall
  | placeOrder : List Char → ℚ → String → PyFloat → ApiCall
  | replaceOrder : String → PyFloat → ApiCall
deriving DecidableEq, Repr

/-- The statuses `poll_order_status` treats as not replaceable in place. -/
def nonReplaceableStatuses : List String :=
  ["accepted", "pending_new", "pending_cancel", "pending_replace",
   "filled", "canceled", "expired", "rejected"]

/-- The wait-for-cancellation loop: repeatedly read the order status until it
is `"canceled"`; returns the index of the confirming poll.  The Python loop is
unbounded, so it is modelled with fuel and `none` marks not terminating within
the fuel. -/
def waitCancel (polls : ℕ → Option String) : ℕ → ℕ → Option ℕ
  | 0, _ => none
  | fuel + 1, i => if polls i = some "canceled" then some i else waitCancel polls fuel (i + 1)

/-- The `get_order` calls issued by the wait loop when poll `n` confirms. -/
def cancelPollTrace (orderId : String) (n : ℕ) : List ApiCall :=
  List.replicate (n + 1) (ApiCall.getOrder orderId)

/-- The standard-replace branch of the adjust handler (`None` and any status
outside the non-replaceable set fall through to it). -/
def handleAdjustReplace (ord : TrackedOrder) (pre : List ApiCall) (inp : List Char)
    (replaceResult : Option (Option String)) : Option (List ApiCall × TrackedOrder) :=
  if inp = ['q'] then some (pre, ord)
  else
    match pyFloatVal inp with
    | Option.none => some (pre, ord)
    | some v =>
      let newPrice := v
      let trace := pre ++ [ApiCall.replaceOrder ord.id newPrice]
      match replaceResult with
      | some idOpt => some (trace, { ord with id := idOpt.getD ord.id, price := newPrice })
      | none => some (trace, ord)

/-- The `'A'` (adjust) handler of `poll_order_status` (lines 290-384), as a
function of the order record and of the broker/user responses it consumes:
`currentStatus` is the status read back for the classification, `rawInput` the
reply to the new-price prompt (the source lower-cases it), `cancelOk` the
cancel call's success, `polls` the statuses seen by the wait loop (with
`fuel` bounding that unbounded loop), `placeResult`/`replaceResult` the
outcome of the new-order or replace call (`some id` carries the new id; for
replace, `some none` is a success payload without an `"id"` key, which keeps
the old id).  Returns the list of broker calls issued and the updated order,
or `none` when the handler does not terminate within `fuel` (or the symbol is
unparsable, where the Python raises `TypeError`). -/
def handleAdjust (ord : TrackedOrder) (currentStatus : Option String)
    (rawInput : List Char) (cancelOk : Bool) (polls : ℕ → Option String) (fuel : ℕ)
    (placeResult : Option String) (replaceResult : Option (Option String)) :
    Option (List ApiCall × TrackedOrder) :=
  match parse_occ_symbol ord.symbol with
  | none => none
  | some parsed =>
    let pre := [ApiCall.getOrder ord.id, ApiCall.getOptionChain parsed.underlying]
    let inp := pyLower rawInput
    match currentStatus with
    | some st =>
      if st ∈ nonReplaceableStatuses then
        if inp = ['q'] then some (pre, ord)
        else
          match pyFloatVal inp with
          | Option.none => some (pre, ord)
          | some v =>
            let newPrice := v
            if cancelOk = false then some (pre ++ [ApiCall.cancelOrder ord.id], ord)
            else
              match waitCancel polls fuel 0 with
              | none => none
              | some n =>
                let trace := pre ++ ApiCall.cancelOrder ord.id :: cancelPollTrace ord.id n
                  ++ [ApiCall.placeOrder ord.symbol ord.quantity ord.side newPrice]
                match placeResult with
                | some newId => some (trace, { ord with id := newId, price := newPrice })
                | none => some (trace, ord)
      else
        handleAdjustReplace ord pre inp replaceResult
    | none => handleAdjustReplace ord pre inp replaceResult

/-- Python `str.upper()` as a `String` operation. -/
def pyUpperStr (s : String) : String := String.mk (pyUpper s.data)

/-- The terminal-status check at the bottom of the monitoring loop (lines
435-440): `"filled"` returns `"FILLED"`, and `"canceled"/"expired"/"rejected"`
return upper-cased; anything else keeps polling (`none`). -/
def monitorStatusCheck (status : Option String) : Option String :=
  match status with
  | none => none
  | some s =>
    if s = "filled" then some "FILLED"
    else if s ∈ ["canceled", "expired", "rejected"] then some (pyUpperStr s)
    else none

/-! ### Supporting lemmas -/

/-! ### Lemmas -/

theorem charVal_digitChar {d : ℕ} (h : d < 10) : charVal (Nat.digitChar d) = d := by
  interval_cases d <;> rfl

theorem isDigit_digitChar {d : ℕ} (h : d < 10) : (Nat.digitChar d).isDigit = true := by
  interval_cases d <;> rfl

theorem valDigits_pad2 {n : ℕ} (h : n < 100) : valDigits (pad2 n) = n := by
  have h1 : n / 10 < 10 := by omega
  have h2 : n % 10 < 10 := by omega
  simp only [valDigits, pad2, List.foldl, charVal_digitChar h1, charVal_digitChar h2]
  omega

theorem valDigits_pad4 {n : ℕ} (h : n < 10000) : valDigits (pad4 n) = n := by
  have h1 : n / 1000 < 10 := by omega
  have h2 : n / 100 % 10 < 10 := by omega
  have h3 : n / 10 % 10 < 10 := by omega
  have h4 : n % 10 < 10 := by omega
  simp only [valDigits, pad4, List.foldl, charVal_digitChar h1, charVal_digitChar h2,
    charVal_digitChar h3, charVal_digitChar h4]
  omega

theorem valDigits_pad8 {n : ℕ} (h : n < 100000000) : valDigits (pad8 n) = n := by
  have h1 : n / 10000000 < 10 := by omega
  have h2 : n / 1000000 % 10 < 10 := by omega
  have h3 : n / 100000 % 10 < 10 := by omega
  have h4 : n / 10000 % 10 < 10 := by omega
  have h5 : n / 1000 % 10 < 10 := by omega
  have h6 : n / 100 % 10 < 10 := by omega
  have h7 : n / 10 % 10 < 10 := by omega
  have h8 : n % 10 < 10 := by omega
  simp only [valDigits, pad8, List.foldl, charVal_digitChar h1, charVal_digitChar h2,
    charVal_digitChar h3, charVal_digitChar h4, charVal_digitChar h5, charVal_digitChar h6,
    charVal_digitChar h7, charVal_digitChar h8]
  omega

theorem rnd_intCast (m : ℤ) : rnd (m : ℚ) = m := by
  simp only [rnd, Int.floor_intCast, sub_self]
  norm_num

theorem pow2_mul_pow2_neg (a : ℤ) : pow2 a * pow2 (-a) = 1 := by
  rcases lt_trichotomy a 0 with h | h | h
  · have h1 : ¬(0 ≤ a) := by omega
    have h2 : (0 : ℤ) ≤ -a := by omega
    simp only [pow2, if_neg h1, if_pos h2, neg_neg]
    exact inv_mul_cancel₀ (by positivity)
  · subst h
    simp [pow2]
  · have h1 : (0 : ℤ) ≤ a := by omega
    have h2 : ¬((0 : ℤ) ≤ -a) := by omega
    simp only [pow2, if_pos h1, if_neg h2, neg_neg]
    exact mul_inv_cancel₀ (by positivity)

theorem flPos_eq_self {x : ℚ} (m : ℤ) (hm : x * pow2 (52 - qlog2 x) = (m : ℚ)) :
    flPos x = x := by
  unfold flPos
  rw [hm, rnd_intCast, ← hm, mul_assoc]
  have : qlog2 x - 52 = -(52 - qlog2 x) := by ring
  rw [this, pow2_mul_pow2_neg, mul_one]

theorem log2fuel_le {f n k : ℕ} (h : n < 2 ^ (k + 1)) : log2fuel f n ≤ k := by
  induction f generalizing n k with
  | zero => simp [log2fuel]
  | succ f ih =>
    simp only [log2fuel]
    split
    · omega
    · rename_i hn
      have hk : 1 ≤ k := by
        by_contra hk
        have : k = 0 := by omega
        subst this
        simp at h
        omega
      have hdiv : n / 2 < 2 ^ (k - 1 + 1) := by
        have : k - 1 + 1 = k := by omega
        rw [this]
        have h2 : 2 ^ (k + 1) = 2 * 2 ^ k := by ring
        omega
      have := ih hdiv
      omega

theorem natLog2_le {n k : ℕ} (h : n < 2 ^ (k + 1)) : natLog2 n ≤ k := log2fuel_le h

theorem fl_natCast {n : ℕ} (h : n < 2 ^ 53) : fl (n : ℚ) = n := by
  rcases Nat.eq_zero_or_pos n with h0 | h0
  · subst h0
    simp [fl]
  · have hne : ((n : ℚ)) ≠ 0 := by positivity
    have hnn : ¬((n : ℚ) < 0) := by
      push_neg
      positivity
    rw [fl, if_neg hne, if_neg hnn]
    have h1 : (1 : ℚ) ≤ (n : ℚ) := by exact_mod_cast h0
    have he : qlog2 (n : ℚ) = (natLog2 n : ℤ) := by
      rw [qlog2, if_pos h1, Int.floor_natCast]
      simp
    have hle : natLog2 n ≤ 52 := natLog2_le h
    apply flPos_eq_self ((n * 2 ^ (52 - natLog2 n) : ℕ) : ℤ)
    rw [he]
    have harg : (52 : ℤ) - (natLog2 n : ℤ) = ((52 - natLog2 n : ℕ) : ℤ) := by omega
    rw [harg, pow2, if_pos (by positivity), Int.toNat_natCast]
    push_cast
    ring

theorem floor_natCast_div_natCast (m k : ℕ) :
    ⌊(m : ℚ) / (k : ℚ)⌋ = ((m / k : ℕ) : ℤ) := by
  rw [Rat.floor_natCast_div_natCast]
  omega

theorem fl_natCast_div_eight {m : ℕ} (h : m < 2 ^ 53) : fl ((m : ℚ) / 8) = (m : ℚ) / 8 := by
  rcases Nat.eq_zero_or_pos m with h0 | h0
  · subst h0
    simp [fl]
  · have hx : (0 : ℚ) < (m : ℚ) / 8 := by positivity
    rw [fl, if_neg (ne_of_gt hx), if_neg (not_lt.mpr hx.le)]
    rcases le_or_lt 8 m with h8 | h8
    · have h8q : (8 : ℚ) ≤ (m : ℚ) := by exact_mod_cast h8
      have h1 : (1 : ℚ) ≤ (m : ℚ) / 8 := (one_le_div (by norm_num)).mpr h8q
      have h8c : ((8 : ℕ) : ℚ) = (8 : ℚ) := by norm_num
      have he : qlog2 ((m : ℚ) / 8) = (natLog2 (m / 8) : ℤ) := by
        rw [qlog2, if_pos h1, ← h8c, floor_natCast_div_natCast, Int.toNat_natCast]
      have hpow : (2 : ℕ) ^ 53 = 9007199254740992 := by norm_num
      have hm8 : m / 8 < 2 ^ (49 + 1) := by
        have : (2 : ℕ) ^ 50 = 1125899906842624 := by norm_num
        omega
      have hk : natLog2 (m / 8) ≤ 49 := natLog2_le hm8
      apply flPos_eq_self ((m * 2 ^ (49 - natLog2 (m / 8)) : ℕ) : ℤ)
      rw [he]
      have harg : (52 : ℤ) - (natLog2 (m / 8) : ℤ) = ((52 - natLog2 (m / 8) : ℕ) : ℤ) := by
        omega
      rw [harg, pow2, if_pos (by positivity), Int.toNat_natCast]
      have h52 : 52 - natLog2 (m / 8) = (49 - natLog2 (m / 8)) + 3 := by omega
      rw [h52, pow_add]
      push_cast
      field_simp
      ring
    · have h1 : ¬(1 ≤ (m : ℚ) / 8) := by
        rw [not_le, div_lt_one (by norm_num)]
        exact_mod_cast h8
      have he : qlog2 ((m : ℚ) / 8) = -(clog2fuel ((m : ℚ) / 8).den ((m : ℚ) / 8) : ℤ) := by
        rw [qlog2, if_neg h1]
      apply flPos_eq_self ((m * 2 ^ (49 + clog2fuel ((m : ℚ) / 8).den ((m : ℚ) / 8)) : ℕ) : ℤ)
      rw [he]
      have harg : (52 : ℤ) - (-(clog2fuel ((m : ℚ) / 8).den ((m : ℚ) / 8) : ℤ))
          = ((52 + clog2fuel ((m : ℚ) / 8).den ((m : ℚ) / 8) : ℕ) : ℤ) := by omega
      rw [harg, pow2, if_pos (by positivity), Int.toNat_natCast]
      have h52 : 52 + clog2fuel ((m : ℚ) / 8).den ((m : ℚ) / 8)
          = (49 + clog2fuel ((m : ℚ) / 8).den ((m : ℚ) / 8)) + 3 := by omega
      rw [h52, pow_add]
      push_cast
      field_simp
      ring

theorem fl_div1000_of_dvd {n : ℕ} (h125 : 125 ∣ n) (h : n < 2 ^ 56) :
    fl ((n : ℚ) / 1000) = (n : ℚ) / 1000 := by
  obtain ⟨m, rfl⟩ := h125
  have hm : m < 2 ^ 53 := by
    have h56 : (2 : ℕ) ^ 56 = 72057594037927936 := by norm_num
    have h53 : (2 : ℕ) ^ 53 = 9007199254740992 := by norm_num
    omega
  have hq : ((125 * m : ℕ) : ℚ) / 1000 = (m : ℚ) / 8 := by
    push_cast
    field_simp
    ring
  rw [hq]
  exact fl_natCast_div_eight hm

theorem truncQ_natCast (k : ℕ) : truncQ (k : ℚ) = (k : ℤ) := by
  have hk : ¬((k : ℚ) < 0) := by
    push_neg
    positivity
  rw [truncQ, if_neg hk, Int.floor_natCast]

theorem two_pow_anti {a b : ℕ} (h : a ≤ b) : (2 : ℚ) ^ a ≤ 2 ^ b :=
  pow_le_pow_right₀ (by norm_num) h

theorem ovfl_big : (2 : ℚ) ^ 60 ≤ ovfl := by
  have h1 : (2 : ℕ) ^ 970 ≤ 2 ^ 1023 := Nat.pow_le_pow_right (by norm_num) (by norm_num)
  have h2 : (2 : ℕ) ^ 60 ≤ 2 ^ 1023 := Nat.pow_le_pow_right (by norm_num) (by norm_num)
  have h3 : (2 : ℕ) ^ 1024 = 2 ^ 1023 + 2 ^ 1023 := by
    rw [pow_succ]
    omega
  have hle : (2 : ℕ) ^ 60 ≤ 2 ^ 1024 - 2 ^ 970 := by omega
  have hcast : (((2 : ℕ) ^ 60 : ℕ) : ℚ) ≤ (((2 ^ 1024 - 2 ^ 970 : ℕ)) : ℚ) := by
    exact_mod_cast hle
  calc (2 : ℚ) ^ 60 = ((2 ^ 60 : ℕ) : ℚ) := by push_cast; ring
    _ ≤ _ := hcast

theorem ovfl_pos : (0 : ℚ) < ovfl :=
  lt_of_lt_of_le (by positivity) ovfl_big

theorem flF_eq_finite {x : ℚ} (h1 : -ovfl < x) (h2 : x < ovfl) :
    flF x = PyFloat.finite (fl x) := by
  rw [flF, if_neg (not_le.mpr h1), if_neg (not_le.mpr h2)]

theorem flF_natCast {n : ℕ} (h : n < 2 ^ 53) : flF (n : ℚ) = PyFloat.finite (n : ℚ) := by
  have hq : (n : ℚ) < 2 ^ 53 := by exact_mod_cast h
  have h53 : (2 : ℚ) ^ 53 ≤ 2 ^ 60 := two_pow_anti (by norm_num)
  have hlt : (n : ℚ) < ovfl := lt_of_lt_of_le hq (le_trans h53 ovfl_big)
  have hge : -ovfl < (n : ℚ) := lt_of_lt_of_le (neg_neg_of_pos ovfl_pos) (Nat.cast_nonneg n)
  rw [flF_eq_finite hge hlt, fl_natCast h]

/-- The encoding-side strike computation `int(float(strike) * 1000)` is exact on
strikes that are whole multiples of `0.125` (whose doubles are exact). -/
theorem strike_encode_exact {k : ℕ} (h125 : 125 ∣ k) (hk : k < 100000000) :
    truncQ (fl (fl ((k : ℚ) / 1000) * 1000)) = (k : ℤ) := by
  have hb : k < 2 ^ 56 := by
    have : (2 : ℕ) ^ 56 = 72057594037927936 := by norm_num
    omega
  rw [fl_div1000_of_dvd h125 hb]
  have hq : (k : ℚ) / 1000 * 1000 = (k : ℚ) := by
    field_simp
  rw [hq, fl_natCast (by
    have : (2 : ℕ) ^ 53 = 9007199254740992 := by norm_num
    omega), truncQ_natCast]

theorem isDigitC_digitChar {d : ℕ} (h : d < 10) : isDigitC (Nat.digitChar d) = true := by
  interval_cases d <;> rfl

theorem takeWhile_append_cons {α : Type} {p : α → Bool} {l1 l2 : List α} {c : α}
    (h1 : ∀ x ∈ l1, p x = true) (hc : p c = false) :
    (l1 ++ c :: l2).takeWhile p = l1 := by
  induction l1 with
  | nil => simp [List.takeWhile, hc]
  | cons a t ih =>
    have ha : p a = true := h1 a (by simp)
    simp only [List.cons_append, List.takeWhile, ha, List.append_eq]
    rw [ih fun x hx => h1 x (by simp [hx])]

theorem dropWhile_append_cons {α : Type} {p : α → Bool} {l1 l2 : List α} {c : α}
    (h1 : ∀ x ∈ l1, p x = true) (hc : p c = false) :
    (l1 ++ c :: l2).dropWhile p = c :: l2 := by
  induction l1 with
  | nil => simp [List.dropWhile, hc]
  | cons a t ih =>
    have ha : p a = true := h1 a (by simp)
    simp only [List.cons_append, List.dropWhile, ha, List.append_eq]
    exact ih fun x hx => h1 x (by simp [hx])

theorem isPySpace_of_isDigitC {c : Char} (h : isDigitC c = true) : isPySpace c = false := by
  simp only [isDigitC, Bool.and_eq_true, decide_eq_true_eq] at h
  simp only [isPySpace, Bool.or_eq_false_iff, decide_eq_false_iff_not]
  omega

theorem dropWhile_isPySpace_of_digits {l : List Char} (hd : ∀ c ∈ l, isDigitC c = true) :
    l.dropWhile isPySpace = l := by
  cases l with
  | nil => rfl
  | cons c t =>
    simp [List.dropWhile, isPySpace_of_isDigitC (hd c (by simp))]

theorem pyStrip_of_digits {l : List Char} (hd : ∀ c ∈ l, isDigitC c = true) :
    pyStrip l = l := by
  rw [pyStrip, dropWhile_isPySpace_of_digits hd,
    dropWhile_isPySpace_of_digits fun c hc => hd c (List.mem_reverse.mp hc), List.reverse_reverse]

theorem digitPartAux_digits {l : List Char} (hd : ∀ c ∈ l, isDigitC c = true) :
    digitPartAux l = (l, []) := by
  induction l with
  | nil => rfl
  | cons c t ih =>
    have hc : isDigitC c = true := hd c (by simp)
    have ht : digitPartAux t = (t, []) := ih fun x hx => hd x (by simp [hx])
    rw [digitPartAux.eq_def]
    simp only [hc, if_true, ht]

theorem digitPart_digits {l : List Char} (hne : l ≠ []) (hd : ∀ c ∈ l, isDigitC c = true) :
    digitPart l = some (l, []) := by
  cases l with
  | nil => exact absurd rfl hne
  | cons c t =>
    have hc : isDigitC c = true := hd c (by simp)
    have ht : digitPartAux t = (t, []) := digitPartAux_digits fun x hx => hd x (by simp [hx])
    show (if isDigitC c then some ((fun p => (c :: p.1, p.2)) (digitPartAux t)) else none) = _
    rw [if_pos hc, ht]

theorem pyFloatMantissa_digits {l : List Char} (hne : l ≠ [])
    (hd : ∀ c ∈ l, isDigitC c = true) :
    pyFloatMantissa l = some ((valDigits l : ℕ) : ℚ) := by
  rw [pyFloatMantissa.eq_def, digitPart_digits hne hd]
  rfl

theorem isDigitC_pyLowerChar (c : Char) : isDigitC (pyLowerChar c) = isDigitC c := by
  unfold pyLowerChar
  split <;> rfl

theorem pyLower_digit_head_ne_special {c : Char} {rest : List Char}
    (hc : isDigitC c = true) :
    pyLower (c :: rest) ≠ ['i', 'n', 'f'] ∧
    pyLower (c :: rest) ≠ ['i', 'n', 'f', 'i', 'n', 'i', 't', 'y'] ∧
    pyLower (c :: rest) ≠ ['n', 'a', 'n'] := by
  have hlc : isDigitC (pyLowerChar c) = true := by
    rw [isDigitC_pyLowerChar]
    exact hc
  refine ⟨?_, ?_, ?_⟩ <;> intro h <;> rw [pyLower, List.map_cons] at h
  · injection h with h1 h2
    rw [h1] at hlc
    exact absurd hlc (by decide)
  · injection h with h1 h2
    rw [h1] at hlc
    exact absurd hlc (by decide)
  · injection h with h1 h2
    rw [h1] at hlc
    exact absurd hlc (by decide)

theorem pyFloatVal_digits {l : List Char} (hne : l ≠ []) (hd : ∀ c ∈ l, isDigitC c = true) :
    pyFloatVal l = some (flF ((valDigits l : ℕ) : ℚ)) := by
  cases l with
  | nil => exact absurd rfl hne
  | cons c rest =>
    have hcd : isDigitC c = true := hd c (by simp)
    have hplus : ¬(c = '+') := by
      intro h
      subst h
      exact absurd hcd (by decide)
    have hminus : ¬(c = '-') := by
      intro h
      subst h
      exact absurd hcd (by decide)
    obtain ⟨h1, h2, h3⟩ := @pyLower_digit_head_ne_special c rest hcd
    rw [pyFloatVal, pyStrip_of_digits hd]
    simp only [hplus, hminus, if_false, h1, h2, h3, or_self,
      pyFloatMantissa_digits (List.cons_ne_nil c rest) hd, if_true, Bool.false_eq_true]

theorem isDigitC_ne_dash {c : Char} (h : isDigitC c = true) : (c != '-') = true := by
  rcases eq_or_ne c '-' with rfl | hgoal
  · exact absurd h (by decide)
  · simpa [bne_iff_ne] using hgoal

theorem pad2_all_digits (n : ℕ) (h : n < 100) : ∀ c ∈ pad2 n, isDigitC c = true := by
  intro c hc
  simp only [pad2, List.mem_cons, List.not_mem_nil, or_false] at hc
  rcases hc with rfl | rfl
  · exact isDigitC_digitChar (by omega)
  · exact isDigitC_digitChar (by omega)

theorem pad4_all_digits (n : ℕ) (h : n < 10000) : ∀ c ∈ pad4 n, isDigitC c = true := by
  intro c hc
  simp only [pad4, List.mem_cons, List.not_mem_nil, or_false] at hc
  rcases hc with rfl | rfl | rfl | rfl
  · exact isDigitC_digitChar (by omega)
  · exact isDigitC_digitChar (by omega)
  · exact isDigitC_digitChar (by omega)
  · exact isDigitC_digitChar (by omega)

theorem pad8_all_digits (n : ℕ) (h : n < 100000000) : ∀ c ∈ pad8 n, isDigitC c = true := by
  intro c hc
  simp only [pad8, List.mem_cons, List.not_mem_nil, or_false] at hc
  rcases hc with rfl | rfl | rfl | rfl | rfl | rfl | rfl | rfl
  all_goals exact isDigitC_digitChar (by omega)

theorem splitAtFirstDigit_append {u r : List Char}
    (hu : ∀ c ∈ u, isDigitC c = false) (hr : ∃ c t, r = c :: t ∧ isDigitC c = true) :
    splitAtFirstDigit (u ++ r) = some (u, r) := by
  induction u with
  | nil =>
    obtain ⟨c, t, rfl, hc⟩ := hr
    simp [splitAtFirstDigit, hc]
  | cons a s ih =>
    have ha : isDigitC a = false := hu a (by simp)
    simp only [List.cons_append, splitAtFirstDigit, ha, Bool.false_eq_true, if_false,
      List.append_eq]
    rw [ih fun c hc => hu c (by simp [hc])]

theorem pivotYear_lt (yy : ℕ) (h : yy < 100) : 1969 ≤ pivotYear yy ∧ pivotYear yy ≤ 2068 := by
  rw [pivotYear]
  split <;> omega

theorem pivotYear_mod (yy : ℕ) (h : yy < 100) : pivotYear yy % 100 = yy := by
  rw [pivotYear]
  split <;> omega

theorem pivotYear_of_mod {y : ℕ} (h1 : 1969 ≤ y) (h2 : y ≤ 2068) : pivotYear (y % 100) = y := by
  rw [pivotYear]
  split <;> omega

theorem dayField_pad2 {d : ℕ} (h : d < 100) : dayField (pad2 d) = some d := by
  have h1 : d / 10 < 10 := by omega
  have h2 : d % 10 < 10 := by omega
  show dayField [Nat.digitChar (d / 10), Nat.digitChar (d % 10)] = some d
  rw [dayField, if_pos ⟨isDigitC_digitChar h1, isDigitC_digitChar h2⟩,
    charVal_digitChar h1, charVal_digitChar h2]
  congr 1
  omega

theorem daysInMonth_le (y m : ℕ) : daysInMonth y m ≤ 31 := by
  rw [daysInMonth]
  split_ifs <;> simp

theorem pyStrptimeYYMMDD_pads {yy m d : ℕ} (hyy : yy < 100)
    (hm1 : 1 ≤ m) (hm2 : m ≤ 12) (hd1 : 1 ≤ d) (hd2 : d ≤ daysInMonth (pivotYear yy) m) :
    pyStrptimeYYMMDD (pad2 yy ++ pad2 m ++ pad2 d) = some (isoOf (pivotYear yy) m d) := by
  have e1 : yy / 10 < 10 := by omega
  have e2 : yy % 10 < 10 := by omega
  have e3 : m / 10 < 10 := by omega
  have e4 : m % 10 < 10 := by omega
  have hday : dayField (pad2 d) = some d := dayField_pad2 (by
    have := daysInMonth_le (pivotYear yy) m
    omega)
  show pyStrptimeYYMMDD
      [Nat.digitChar (yy / 10), Nat.digitChar (yy % 10), Nat.digitChar (m / 10),
       Nat.digitChar (m % 10), Nat.digitChar (d / 10), Nat.digitChar (d % 10)] = _
  rw [pyStrptimeYYMMDD]
  rw [if_pos ⟨isDigitC_digitChar e1, isDigitC_digitChar e2, isDigitC_digitChar e3,
    isDigitC_digitChar e4⟩]
  rw [show ([Nat.digitChar (d / 10), Nat.digitChar (d % 10)] : List Char) = pad2 d from rfl,
    hday]
  rw [charVal_digitChar e1, charVal_digitChar e2, charVal_digitChar e3, charVal_digitChar e4]
  rw [show 10 * (yy / 10) + yy % 10 = yy from by omega,
    show 10 * (m / 10) + m % 10 = m from by omega]
  show (if 1 ≤ m ∧ m ≤ 12 ∧ 1 ≤ d ∧ d ≤ daysInMonth (pivotYear yy) m
    then some (isoOf (pivotYear yy) m d) else none) = some (isoOf (pivotYear yy) m d)
  rw [if_pos ⟨hm1, hm2, hd1, hd2⟩]

theorem pyStrptimeYMD_isoOf {y m d : ℕ} (hy1 : 1000 ≤ y) (hy2 : y ≤ 9999)
    (hm1 : 1 ≤ m) (hm2 : m ≤ 12) (hd1 : 1 ≤ d) (hd2 : d ≤ daysInMonth y m) :
    pyStrptimeYMD (isoOf y m d) = some (y, m, d) := by
  have hd100 : d < 100 := by
    have := daysInMonth_le y m
    omega
  have h4digits : ∀ c ∈ pad4 y, (fun c => c != '-') c = true :=
    fun c hc => isDigitC_ne_dash (pad4_all_digits y (by omega) c hc)
  have h2digitsM : ∀ c ∈ pad2 m, (fun c => c != '-') c = true :=
    fun c hc => isDigitC_ne_dash (pad2_all_digits m (by omega) c hc)
  have hdash : (fun c => c != '-') '-' = false := by decide
  have htake4 : (isoOf y m d).takeWhile (fun c => c != '-') = pad4 y :=
    takeWhile_append_cons h4digits hdash
  have hdrop4 : (isoOf y m d).dropWhile (fun c => c != '-') = '-' :: (pad2 m ++ '-' :: pad2 d) :=
    dropWhile_append_cons h4digits hdash
  have htake2 : (pad2 m ++ '-' :: pad2 d).takeWhile (fun c => c != '-') = pad2 m :=
    takeWhile_append_cons h2digitsM hdash
  have hdrop2 : (pad2 m ++ '-' :: pad2 d).dropWhile (fun c => c != '-') = '-' :: pad2 d :=
    dropWhile_append_cons h2digitsM hdash
  rw [pyStrptimeYMD]
  simp only [htake4, hdrop4, htake2, hdrop2]
  have hcond : (pad4 y).length = 4 ∧ (pad4 y).all isDigitC = true ∧ 1 ≤ (pad2 m).length ∧
      (pad2 m).length ≤ 2 ∧ (pad2 m).all isDigitC = true := by
    refine ⟨rfl, ?_, by simp [pad2], by simp [pad2], ?_⟩
    · simp only [List.all_eq_true]
      exact fun c hc => pad4_all_digits y (by omega) c hc
    · simp only [List.all_eq_true]
      exact fun c hc => pad2_all_digits m (by omega) c hc
  rw [if_pos hcond, dayField_pad2 hd100]
  rw [valDigits_pad4 (by omega), valDigits_pad2 (by omega)]
  show (if 1 ≤ y ∧ 1 ≤ m ∧ m ≤ 12 ∧ 1 ≤ d ∧ d ≤ daysInMonth y m
    then some (y, m, d) else none) = some (y, m, d)
  rw [if_pos ⟨by omega, hm1, hm2, hd1, hd2⟩]

theorem parse_built {u : List Char} (hu : ∀ c ∈ u, isDigitC c = false)
    {yy m d k : ℕ} (hyy : yy < 100) (hm1 : 1 ≤ m) (hm2 : m ≤ 12)
    (hd1 : 1 ≤ d) (hd2 : d ≤ daysInMonth (pivotYear yy) m) (T : Char) (hk : k < 100000000) :
    parse_occ_symbol (u ++ pad2 yy ++ pad2 m ++ pad2 d ++ T :: pad8 k) =
      some { underlying := u,
             expiration_date := isoOf (pivotYear yy) m d,
             type := if T = 'C' then ['c', 'a', 'l', 'l'] else ['p', 'u', 't'],
             strike_price := PyFloat.finite (fl (((k : ℕ) : ℚ) / 1000)) } := by
  have hr : pad2 yy ++ (pad2 m ++ (pad2 d ++ T :: pad8 k)) =
      Nat.digitChar (yy / 10) :: Nat.digitChar (yy % 10) :: Nat.digitChar (m / 10) ::
      Nat.digitChar (m % 10) :: Nat.digitChar (d / 10) :: Nat.digitChar (d % 10) ::
      T :: pad8 k := by
    simp [pad2]
  have hsplit : splitAtFirstDigit
      (u ++ (pad2 yy ++ (pad2 m ++ (pad2 d ++ T :: pad8 k)))) =
      some (u, pad2 yy ++ (pad2 m ++ (pad2 d ++ T :: pad8 k))) := by
    apply splitAtFirstDigit_append hu
    rw [hr]
    exact ⟨_, _, rfl, isDigitC_digitChar (by omega)⟩
  have htake : (pad2 yy ++ (pad2 m ++ (pad2 d ++ T :: pad8 k))).take 6 =
      pad2 yy ++ pad2 m ++ pad2 d := by
    rw [hr]
    simp [pad2]
  have hdrop : (pad2 yy ++ (pad2 m ++ (pad2 d ++ T :: pad8 k))).drop 6 = T :: pad8 k := by
    rw [hr]
    rfl
  have hfv : pyFloatVal (pad8 k) = some (flF ((valDigits (pad8 k) : ℕ) : ℚ)) :=
    pyFloatVal_digits (by simp [pad8]) (pad8_all_digits k hk)
  have h53 : k < 2 ^ 53 := by
    have : (2 : ℕ) ^ 53 = 9007199254740992 := by norm_num
    omega
  have hdv : pyDiv1000 (PyFloat.finite ((k : ℕ) : ℚ)) =
      PyFloat.finite (fl (((k : ℕ) : ℚ) / 1000)) := by
    show flF (((k : ℕ) : ℚ) / 1000) = _
    have hq : ((k : ℕ) : ℚ) < 2 ^ 53 := by exact_mod_cast h53
    have h60 : (2 : ℚ) ^ 53 ≤ 2 ^ 60 := two_pow_anti (by norm_num)
    have hnn : (0 : ℚ) ≤ ((k : ℕ) : ℚ) := by positivity
    have hds : ((k : ℕ) : ℚ) / 1000 ≤ ((k : ℕ) : ℚ) := div_le_self hnn (by norm_num)
    have hup : ((k : ℕ) : ℚ) / 1000 < ovfl :=
      lt_of_le_of_lt hds (lt_of_lt_of_le hq (le_trans h60 ovfl_big))
    have hlo : -ovfl < ((k : ℕ) : ℚ) / 1000 :=
      lt_of_lt_of_le (neg_neg_of_pos ovfl_pos)
        (div_nonneg (Nat.cast_nonneg k) (by norm_num))
    rw [flF_eq_finite hlo hup]
  simp only [List.append_assoc]
  rw [parse_occ_symbol, hsplit]
  simp only [hdrop, htake]
  rw [pyStrptimeYYMMDD_pads hyy hm1 hm2 hd1 hd2, hfv, valDigits_pad8 hk, flF_natCast h53]
  simp only [hdv]

theorem isDigitC_pyUpperChar (c : Char) : isDigitC (pyUpperChar c) = isDigitC c := by
  unfold pyUpperChar
  split <;> rfl

theorem create_built {u : List Char} {y m d k : ℕ} {t : List Char}
    (hy1 : 1969 ≤ y) (hy2 : y ≤ 2068) (hm1 : 1 ≤ m) (hm2 : m ≤ 12)
    (hd1 : 1 ≤ d) (hd2 : d ≤ daysInMonth y m)
    (ht : pyUpper t = ['C'] ∨ pyUpper t = ['P'])
    (h125 : 125 ∣ k) (hk : k < 100000000) :
    create_occ_symbolQ u (isoOf y m d) t (PyFloat.finite ((k : ℚ) / 1000)) =
      PyRet.val (pyUpper u ++ (pad2 (y % 100) ++ pad2 m ++ pad2 d) ++ pyUpper t ++ pad8 k) := by
  have hmul : ((k : ℚ) / 1000) * 1000 = (k : ℚ) := by field_simp
  have h53 : k < 2 ^ 53 := by
    have : (2 : ℕ) ^ 53 = 9007199254740992 := by norm_num
    omega
  have hpm : pyMul1000 (PyFloat.finite ((k : ℚ) / 1000)) = PyFloat.finite ((k : ℚ)) := by
    show flF (((k : ℚ) / 1000) * 1000) = _
    rw [hmul]
    exact flF_natCast h53
  have hfield : formatInt08 ((k : ℕ) : ℤ) = pad8 k := by
    rw [formatInt08, if_neg (by omega), Int.toNat_natCast, if_pos hk]
  rw [create_occ_symbolQ, pyStrptimeYMD_isoOf (by omega) (by omega) hm1 hm2 hd1 hd2]
  simp only [hpm]
  show (if pyUpper t = ['C'] ∨ pyUpper t = ['P'] then
      PyRet.val (pyUpper u ++ (pad2 (y % 100) ++ pad2 m ++ pad2 d) ++ pyUpper t ++
        formatInt08 (truncQ ((k : ℚ)))) else PyRet.none) = _
  rw [if_pos ht, truncQ_natCast k, hfield]

theorem parse_built_upper {u : List Char} (hu : ∀ c ∈ u, isDigitC c = false)
    {y m d k : ℕ} (hy1 : 1969 ≤ y) (hy2 : y ≤ 2068) (hm1 : 1 ≤ m) (hm2 : m ≤ 12)
    (hd1 : 1 ≤ d) (hd2 : d ≤ daysInMonth y m) (T : Char)
    (h125 : 125 ∣ k) (hk : k < 100000000) :
    parse_occ_symbol (pyUpper u ++ (pad2 (y % 100) ++ pad2 m ++ pad2 d) ++ [T] ++ pad8 k) =
      some { underlying := pyUpper u,
             expiration_date := isoOf y m d,
             type := if T = 'C' then ['c', 'a', 'l', 'l'] else ['p', 'u', 't'],
             strike_price := PyFloat.finite ((k : ℚ) / 1000) } := by
  have hu2 : ∀ c ∈ pyUpper u, isDigitC c = false := by
    intro c hc
    obtain ⟨c0, hc0, rfl⟩ := List.mem_map.mp hc
    rw [isDigitC_pyUpperChar]
    exact hu c0 hc0
  have hd2p : d ≤ daysInMonth (pivotYear (y % 100)) m := by
    rw [pivotYear_of_mod hy1 hy2]
    exact hd2
  have h53 : k < 2 ^ 53 := by
    have : (2 : ℕ) ^ 53 = 9007199254740992 := by norm_num
    omega
  have hb : k < 2 ^ 56 := by
    have : (2 : ℕ) ^ 56 = 72057594037927936 := by norm_num
    omega
  have hshape : pyUpper u ++ (pad2 (y % 100) ++ pad2 m ++ pad2 d) ++ [T] ++ pad8 k =
      pyUpper u ++ pad2 (y % 100) ++ pad2 m ++ pad2 d ++ T :: pad8 k := by
    simp
  rw [hshape, parse_built hu2 (by omega) hm1 hm2 hd1 hd2p T hk,
    pivotYear_of_mod hy1 hy2, fl_div1000_of_dvd h125 hb]

theorem minIdxAux_spec (key : ℕ → ℚ) :
    ∀ (m s b : ℕ), b < s →
      (minIdxAux key (List.range' s m) b = b ∨
        (s ≤ minIdxAux key (List.range' s m) b ∧ minIdxAux key (List.range' s m) b < s + m)) ∧
      key (minIdxAux key (List.range' s m) b) ≤ key b ∧
      (∀ i, s ≤ i → i < s + m → key (minIdxAux key (List.range' s m) b) ≤ key i) ∧
      (∀ i, (i = b ∨ (s ≤ i ∧ i < s + m)) → key i = key (minIdxAux key (List.range' s m) b) →
        minIdxAux key (List.range' s m) b ≤ i) := by
  intro m
  induction m with
  | zero =>
    intro s b hb
    refine ⟨Or.inl rfl, le_refl _, fun i h1 h2 => by omega, fun i hi _ => ?_⟩
    rcases hi with rfl | ⟨h1, h2⟩
    · exact le_refl _
    · omega
  | succ m ih =>
    intro s b hb
    rw [List.range'_succ]
    rw [show minIdxAux key (s :: List.range' (s + 1) m 1) b =
      minIdxAux key (List.range' (s + 1) m) (if key s < key b then s else b) from rfl]
    set b' := if key s < key b then s else b with hb'
    have hbs : b' < s + 1 := by
      rw [hb']
      split <;> omega
    obtain ⟨ih1, ih2, ih3, ih4⟩ := ih (s + 1) b' hbs
    set r := minIdxAux key (List.range' (s + 1) m) b' with hr
    have hbcase : (key s < key b ∧ b' = s) ∨ (key b ≤ key s ∧ b' = b) := by
      rcases lt_or_ge (key s) (key b) with hlt | hge
      · exact Or.inl ⟨hlt, by rw [hb', if_pos hlt]⟩
      · exact Or.inr ⟨hge, by rw [hb', if_neg (not_lt.mpr hge)]⟩
    have hkb : key r ≤ key b := by
      rcases hbcase with ⟨hlt, he⟩ | ⟨hge, he⟩
      · rw [he] at ih2
        exact le_trans ih2 (le_of_lt hlt)
      · rw [he] at ih2
        exact ih2
    have hks : key r ≤ key s := by
      rcases hbcase with ⟨hlt, he⟩ | ⟨hge, he⟩
      · rw [he] at ih2
        exact ih2
      · rw [he] at ih2
        exact le_trans ih2 hge
    refine ⟨?_, hkb, ?_, ?_⟩
    · rcases ih1 with hrb | ⟨h1, h2⟩
      · rcases hbcase with ⟨hlt, he⟩ | ⟨hge, he⟩
        · right
          rw [hrb, he]
          omega
        · left
          rw [hrb, he]
      · right
        omega
    · intro i h1 h2
      rcases eq_or_lt_of_le h1 with heq | hgt
      · rw [← heq]
        exact hks
      · exact ih3 i (by omega) (by omega)
    · intro i hi hk
      rcases hi with rfl | ⟨h1, h2⟩
      · rcases hbcase with ⟨hlt, he⟩ | ⟨hge, he⟩
        · exfalso
          rw [he] at ih2
          have hcon : key r < key i := lt_of_le_of_lt ih2 hlt
          rw [hk] at hcon
          exact lt_irrefl _ hcon
        · exact ih4 i (Or.inl he.symm) hk
      · rcases eq_or_lt_of_le h1 with heq | hgt
        · rcases hbcase with ⟨hlt, he⟩ | ⟨hge, he⟩
          · refine le_trans (ih4 s (Or.inl ?_) ?_) (by omega)
            · exact he.symm
            · rw [← heq] at hk
              exact hk
          · have hrb2 : key r ≤ key b := by
              rw [he] at ih2
              exact ih2
            have heq2 : key b = key r := by
              apply le_antisymm
              · calc key b ≤ key s := hge
                  _ = key i := by rw [heq]
                  _ = key r := hk
              · exact hrb2
            have hle : r ≤ b := ih4 b (Or.inl he.symm) heq2
            omega
        · exact ih4 i (Or.inr ⟨by omega, by omega⟩) hk

theorem pyMinRange_spec (key : ℕ → ℚ) (n : ℕ) (hn : 0 < n) :
    pyMinRange key n < n ∧ (∀ i, i < n → key (pyMinRange key n) ≤ key i) ∧
    (∀ i, i < n → key i = key (pyMinRange key n) → pyMinRange key n ≤ i) := by
  obtain ⟨m, rfl⟩ : ∃ m, n = m + 1 := ⟨n - 1, by omega⟩
  have hrw : pyMinRange key (m + 1) = minIdxAux key (List.range' 1 m) 0 := by
    rw [pyMinRange, List.range_eq_range', List.range'_succ]
    rw [show minIdxAux key (0 :: List.range' (0 + 1) m 1) 0 =
      minIdxAux key (List.range' (0 + 1) m) (if key 0 < key 0 then 0 else 0) from rfl]
    rw [if_neg (lt_irrefl _)]
  obtain ⟨h1, h2, h3, h4⟩ := minIdxAux_spec key m 1 0 (by omega)
  rw [hrw]
  refine ⟨by omega, fun i hi => ?_, fun i hi hk => ?_⟩
  · rcases Nat.eq_zero_or_pos i with rfl | hpos
    · exact h2
    · exact h3 i (by omega) (by omega)
  · rcases Nat.eq_zero_or_pos i with rfl | hpos
    · exact h4 0 (Or.inl rfl) hk
    · exact h4 i (Or.inr ⟨by omega, by omega⟩) hk

theorem suggested_strike_spec (strikes : List ℚ) (ref : ℚ) (hne : strikes ≠ [])
    (hsort : strikes.Sorted (· < ·)) :
    suggested_strike strikes ref ∈ strikes ∧
    (∀ x ∈ strikes, |fl (suggested_strike strikes ref - ref)| ≤ |fl (x - ref)|) ∧
    (∀ x ∈ strikes, |fl (x - ref)| = |fl (suggested_strike strikes ref - ref)| →
      suggested_strike strikes ref ≤ x) := by
  have hn : 0 < strikes.length := List.length_pos.mpr hne
  set key := fun i => |fl (strikes.getD i 0 - ref)| with hkey
  obtain ⟨h1, h2, h3⟩ := pyMinRange_spec key strikes.length hn
  set r := pyMinRange key strikes.length with hrdef
  have hsel : suggested_strike strikes ref = strikes[r] := by
    rw [suggested_strike, ← hkey, ← hrdef, List.getD_eq_getElem strikes 0 h1]
  have hkr : key r = |fl (suggested_strike strikes ref - ref)| := by
    rw [hsel, hkey]
    simp only [List.getD_eq_getElem strikes 0 h1]
  have hmono : ∀ i j (hi : i < strikes.length) (hj : j < strikes.length), i ≤ j →
      strikes[i] ≤ strikes[j] := by
    intro i j hi hj hij
    rcases eq_or_lt_of_le hij with rfl | hlt
    · exact le_refl _
    · exact le_of_lt (List.pairwise_iff_getElem.mp hsort i j hi hj hlt)
  refine ⟨?_, ?_, ?_⟩
  · rw [hsel]
    exact List.getElem_mem h1
  · intro x hx
    obtain ⟨j, hj, rfl⟩ := List.mem_iff_getElem.mp hx
    have := h2 j hj
    rw [hkr] at this
    rw [hkey] at this
    simp only [List.getD_eq_getElem strikes 0 hj] at this
    exact this
  · intro x hx hk
    obtain ⟨j, hj, rfl⟩ := List.mem_iff_getElem.mp hx
    have hkj : key j = key r := by
      rw [hkr, hkey]
      simp only [List.getD_eq_getElem strikes 0 hj]
      exact hk
    have hrj : r ≤ j := h3 j hj hkj
    rw [hsel]
    exact hmono r j h1 hj hrj

theorem waitCancel_spec {polls : ℕ → Option String} :
    ∀ {fuel i n : ℕ}, waitCancel polls fuel i = some n →
      i ≤ n ∧ polls n = some "canceled" ∧
      ∀ j, i ≤ j → j < n → polls j ≠ some "canceled" := by
  intro fuel
  induction fuel with
  | zero =>
    intro i n h
    simp [waitCancel] at h
  | succ fuel ih =>
    intro i n h
    rw [waitCancel] at h
    split at h
    · rename_i hp
      obtain rfl : i = n := by
        injection h
      exact ⟨le_refl _, hp, fun j h1 h2 => by omega⟩
    · rename_i hp
      obtain ⟨h1, h2, h3⟩ := ih h
      refine ⟨by omega, h2, fun j hj1 hj2 => ?_⟩
      rcases eq_or_lt_of_le hj1 with rfl | hgt
      · exact hp
      · exact h3 j (by omega) hj2

theorem splitAtFirstDigit_none {l : List Char} (h : ∀ c ∈ l, isDigitC c = false) :
    splitAtFirstDigit l = none := by
  induction l with
  | nil => rfl
  | cons c t ih =>
    rw [splitAtFirstDigit, if_neg (by simp [h c (by simp)])]
    rw [ih fun x hx => h x (by simp [hx])]

theorem parse_none_of_no_digit {s : List Char} (h : ∀ c ∈ s, isDigitC c = false) :
    parse_occ_symbol s = none := by
  rw [parse_occ_symbol, splitAtFirstDigit_none h]

theorem parse_none_of_short {s u r : List Char}
    (hs : splitAtFirstDigit s = some (u, r)) (hlen : r.length < 7) :
    parse_occ_symbol s = none := by
  have hd : r.drop 6 = [] := by
    rw [List.drop_eq_nil_iff]
    omega
  rw [parse_occ_symbol, hs]
  simp only [hd]

theorem parse_none_of_bad_date {s u r strk : List Char} {tc : Char}
    (hs : splitAtFirstDigit s = some (u, r)) (h7 : r.drop 6 = tc :: strk)
    (hdate : pyStrptimeYYMMDD (r.take 6) = none) :
    parse_occ_symbol s = none := by
  rw [parse_occ_symbol, hs]
  simp only [h7, hdate]

theorem parse_none_of_bad_strike {s u r strk : List Char} {tc : Char}
    (hs : splitAtFirstDigit s = some (u, r)) (h7 : r.drop 6 = tc :: strk)
    (hstrk : pyFloatVal strk = none) :
    parse_occ_symbol s = none := by
  rw [parse_occ_symbol, hs]
  simp only [h7]
  cases hdate : pyStrptimeYYMMDD (r.take 6) with
  | none => rfl
  | some e => simp only [hstrk]

theorem create_val_of_valid (u dateStr typeStr : List Char) (q : ℚ) {y m d : ℕ}
    (hdate : pyStrptimeYMD dateStr = some (y, m, d))
    (ht : pyUpper typeStr = ['C'] ∨ pyUpper typeStr = ['P'])
    (hq1 : -ovfl < q * 1000) (hq2 : q * 1000 < ovfl) :
    create_occ_symbolQ u dateStr typeStr (PyFloat.finite q) =
      PyRet.val (pyUpper u ++ (pad2 (y % 100) ++ pad2 m ++ pad2 d) ++ pyUpper typeStr ++
        formatInt08 (truncQ (fl (q * 1000)))) := by
  have hpm : pyMul1000 (PyFloat.finite q) = PyFloat.finite (fl (q * 1000)) := by
    show flF (q * 1000) = _
    exact flF_eq_finite hq1 hq2
  rw [create_occ_symbolQ, hdate]
  simp only [hpm]
  show (if pyUpper typeStr = ['C'] ∨ pyUpper typeStr = ['P'] then
    PyRet.val (pyUpper u ++ (pad2 (y % 100) ++ pad2 m ++ pad2 d) ++ pyUpper typeStr ++
      formatInt08 (truncQ (fl (q * 1000)))) else PyRet.none) = _
  rw [if_pos ht]

theorem createQ_nan_none (u dateStr typeStr : List Char) {ymd : ℕ × ℕ × ℕ}
    (hdate : pyStrptimeYMD dateStr = some ymd) :
    create_occ_symbolQ u dateStr typeStr PyFloat.nan = PyRet.none := by
  obtain ⟨y, m, d⟩ := ymd
  rw [create_occ_symbolQ, hdate]
  rfl

theorem createQ_inf_raised (u dateStr typeStr : List Char) (s : Bool) {ymd : ℕ × ℕ × ℕ}
    (hdate : pyStrptimeYMD dateStr = some ymd) :
    create_occ_symbolQ u dateStr typeStr (PyFloat.inf s) = PyRet.raised := by
  obtain ⟨y, m, d⟩ := ymd
  rw [create_occ_symbolQ, hdate]
  rfl

theorem create_none_of_bad_date (u dateStr typeStr strike : List Char)
    (hdate : pyStrptimeYMD dateStr = none) :
    create_occ_symbol u dateStr typeStr strike = PyRet.none := by
  rw [create_occ_symbol, hdate]

theorem createQ_no_val_of_bad_type (u dateStr typeStr : List Char) (f : PyFloat)
    {ymd : ℕ × ℕ × ℕ} (hdate : pyStrptimeYMD dateStr = some ymd)
    (ht : ¬(pyUpper typeStr = ['C'] ∨ pyUpper typeStr = ['P'])) :
    ∀ out, create_occ_symbolQ u dateStr typeStr f ≠ PyRet.val out := by
  intro out
  obtain ⟨y, m, d⟩ := ymd
  rw [create_occ_symbolQ, hdate]
  cases hpi : pyInt (pyMul1000 f) with
  | ok k =>
    simp only [hpi]
    rw [if_neg ht]
    exact fun h => PyRet.noConfusion h
  | valueError =>
    simp only [hpi]
    exact fun h => PyRet.noConfusion h
  | overflowError =>
    simp only [hpi]
    exact fun h => PyRet.noConfusion h

theorem create_no_val_of_bad_type (u dateStr typeStr strike : List Char) {ymd : ℕ × ℕ × ℕ}
    (hdate : pyStrptimeYMD dateStr = some ymd)
    (ht : ¬(pyUpper typeStr = ['C'] ∨ pyUpper typeStr = ['P'])) :
    ∀ out, create_occ_symbol u dateStr typeStr strike ≠ PyRet.val out := by
  intro out
  rw [create_occ_symbol, hdate]
  cases hfv : pyFloatVal strike with
  | none => exact fun h => PyRet.noConfusion h
  | some v =>
    simp only []
    exact createQ_no_val_of_bad_type u dateStr typeStr v hdate ht out

theorem jGet_obj (fs : List (String × JVal)) (k : String) :
    jGet (JVal.obj fs) k = jLookup fs k := rfl

/-! ### Claims -/

set_option maxRecDepth 1000000 in
unseal Rat.add Rat.mul Rat.sub Rat.inv in
/-- Claim C1, counterexample: the strike 1.001 is a non-negative number of exact
thousandths, yet `Decode(Encode("HOG","2025-08-29","C","1.001"))` returns the
strike 1.0, not 1.001: `float("1.001") * 1000` is `1000.9999999999999` and
`int()` truncates it to `1000`. -/
theorem c1_roundtrip_counterexample :
    create_occ_symbol "HOG".toList "2025-08-29".toList "C".toList "1.001".toList =
      PyRet.val "HOG250829C00001000".toList ∧
    (parse_occ_symbol "HOG250829C00001000".toList).map ParsedOption.strike_price =
      some (PyFloat.finite 1) ∧
    (1 : ℚ) ≠ 1001 / 1000 := ⟨by decide, by decide, by decide⟩

/-- Claim C1 (amended): for every digit-free underlying, every valid expiry
date in zero-padded `YYYY-MM-DD` form with year in the `%y` pivot range
1969-2068, every type in `C/c/P/p` and every non-negative strike that is an
exact multiple of 0.125 currency units (an exactly-representable binary64
value, `strike = k/1000` with `125 ∣ k`) within the eight-digit field,
decoding the encoded symbol returns exactly the components, with the
underlying upper-cased and the type normalized. -/
theorem c1_roundtrip_amended
    (u : List Char) (hu : ∀ c ∈ u, isDigitC c = false)
    (y m d : ℕ) (hy1 : 1969 ≤ y) (hy2 : y ≤ 2068) (hm1 : 1 ≤ m) (hm2 : m ≤ 12)
    (hd1 : 1 ≤ d) (hd2 : d ≤ daysInMonth y m)
    (t : List Char) (ht : t = ['C'] ∨ t = ['c'] ∨ t = ['P'] ∨ t = ['p'])
    (k : ℕ) (h125 : 125 ∣ k) (hk : k < 100000000) :
    ∃ sym, create_occ_symbolQ u (isoOf y m d) t (PyFloat.finite ((k : ℚ) / 1000)) =
        PyRet.val sym ∧
      parse_occ_symbol sym = some
        { underlying := pyUpper u, expiration_date := isoOf y m d,
          type := if t = ['C'] ∨ t = ['c'] then ['c', 'a', 'l', 'l'] else ['p', 'u', 't'],
          strike_price := PyFloat.finite ((k : ℚ) / 1000) } := by
  have hC : pyUpper ['C'] = ['C'] := rfl
  have hcl : pyUpper ['c'] = ['C'] := rfl
  have hP : pyUpper ['P'] = ['P'] := rfl
  have hpl : pyUpper ['p'] = ['P'] := rfl
  rcases ht with rfl | rfl | rfl | rfl
  · refine ⟨_, create_built hy1 hy2 hm1 hm2 hd1 hd2 (Or.inl hC) h125 hk, ?_⟩
    show parse_occ_symbol
      (pyUpper u ++ (pad2 (y % 100) ++ pad2 m ++ pad2 d) ++ ['C'] ++ pad8 k) = _
    rw [parse_built_upper hu hy1 hy2 hm1 hm2 hd1 hd2 'C' h125 hk]
    simp
  · refine ⟨_, create_built hy1 hy2 hm1 hm2 hd1 hd2 (Or.inl hcl) h125 hk, ?_⟩
    show parse_occ_symbol
      (pyUpper u ++ (pad2 (y % 100) ++ pad2 m ++ pad2 d) ++ ['C'] ++ pad8 k) = _
    rw [parse_built_upper hu hy1 hy2 hm1 hm2 hd1 hd2 'C' h125 hk]
    simp
  · refine ⟨_, create_built hy1 hy2 hm1 hm2 hd1 hd2 (Or.inr hP) h125 hk, ?_⟩
    show parse_occ_symbol
      (pyUpper u ++ (pad2 (y % 100) ++ pad2 m ++ pad2 d) ++ ['P'] ++ pad8 k) = _
    rw [parse_built_upper hu hy1 hy2 hm1 hm2 hd1 hd2 'P' h125 hk]
    simp
  · refine ⟨_, create_built hy1 hy2 hm1 hm2 hd1 hd2 (Or.inr hpl) h125 hk, ?_⟩
    show parse_occ_symbol
      (pyUpper u ++ (pad2 (y % 100) ++ pad2 m ++ pad2 d) ++ ['P'] ++ pad8 k) = _
    rw [parse_built_upper hu hy1 hy2 hm1 hm2 hd1 hd2 'P' h125 hk]
    simp

/-- Claim C1 witness: the amended round trip at
`("HOG", "2025-08-29", "c", 27.0)`. -/
theorem c1_roundtrip_amended_witness :
    ∃ sym, create_occ_symbolQ "HOG".toList (isoOf 2025 8 29) ['c']
        (PyFloat.finite ((27000 : ℚ) / 1000)) = PyRet.val sym ∧
      parse_occ_symbol sym = some
        { underlying := pyUpper "HOG".toList, expiration_date := isoOf 2025 8 29,
          type := if (['c'] : List Char) = ['C'] ∨ (['c'] : List Char) = ['c'] then
            ['c', 'a', 'l', 'l'] else ['p', 'u', 't'],
          strike_price := PyFloat.finite ((27000 : ℚ) / 1000) } :=
  c1_roundtrip_amended "HOG".toList (by decide) 2025 8 29 (by decide) (by decide) (by decide)
    (by decide) (by decide) (by decide) ['c'] (by decide) 27000 (by decide) (by decide)

set_option maxRecDepth 1000000 in
unseal Rat.add Rat.mul Rat.sub Rat.inv in
/-- Claim C3, counterexample: several of the claimed failure conditions do not
produce an error.  A string whose first character is a digit decodes with an
empty underlying; a type character other than `C`/`P` (here `X`) decodes as a
put; non-digit strike fields are accepted by `float()`: `00190.50` decodes to
a value, the underscored group `1_0` decodes to the double nearest 0.01, and
the literal `inf` decodes to a positive infinity. -/
theorem c3_decode_errors_counterexample :
    parse_occ_symbol "250829C00027000".toList =
      some { underlying := [], expiration_date := "2025-08-29".toList,
             type := ['c', 'a', 'l', 'l'], strike_price := PyFloat.finite 27 } ∧
    parse_occ_symbol "HOG250829X00027000".toList =
      some { underlying := "HOG".toList, expiration_date := "2025-08-29".toList,
             type := ['p', 'u', 't'], strike_price := PyFloat.finite 27 } ∧
    (parse_occ_symbol "A250829C00190.50".toList).isSome = true ∧
    (parse_occ_symbol "A250829C1_0".toList).map ParsedOption.strike_price =
      some (PyFloat.finite (fl (1 / 100))) ∧
    (parse_occ_symbol "HOG250829Cinf".toList).map ParsedOption.strike_price =
      some (PyFloat.inf false) :=
  ⟨by decide, by decide, by decide, by decide, by decide⟩

/-- Claim C3 (amended): `Decode` returns `None` — never a partial value — when
the string has no digit, when fewer than seven characters follow the first
digit, when the six date characters fail `%y%m%d` parsing, or when the strike
field fails `float()` parsing (which accepts digit groups with underscores and
the non-finite literals `inf`/`infinity`/`nan` besides plain decimals); but an
empty underlying is accepted, and any type character other than `C` decodes as
a put. -/
theorem c3_decode_errors_amended (s : List Char) :
    ((∀ c ∈ s, isDigitC c = false) → parse_occ_symbol s = none) ∧
    (∀ u r, splitAtFirstDigit s = some (u, r) → r.length < 7 →
      parse_occ_symbol s = none) ∧
    (∀ u r tc strk, splitAtFirstDigit s = some (u, r) → r.drop 6 = tc :: strk →
      pyStrptimeYYMMDD (r.take 6) = none → parse_occ_symbol s = none) ∧
    (∀ u r tc strk, splitAtFirstDigit s = some (u, r) → r.drop 6 = tc :: strk →
      pyFloatVal strk = none → parse_occ_symbol s = none) :=
  ⟨parse_none_of_no_digit,
   fun _ _ hs hlen => parse_none_of_short hs hlen,
   fun _ _ _ _ hs h7 hdate => parse_none_of_bad_date hs h7 hdate,
   fun _ _ _ _ hs h7 hstrk => parse_none_of_bad_strike hs h7 hstrk⟩

/-- Claim C3 witness: the amended error conditions at the digit-free input
`"HOG"`. -/
theorem c3_decode_errors_amended_witness : parse_occ_symbol "HOG".toList = none :=
  (c3_decode_errors_amended "HOG".toList).1 (by decide)

set_option maxRecDepth 1000000 in
unseal Rat.add Rat.mul Rat.sub Rat.inv in
/-- Claim C4, counterexample: the syntactically valid fixed-width symbol
`A250829C00001001` does not survive `encode(decode(s))`: decoding yields the
double nearest to 1.001, and re-encoding truncates `float * 1000` down to
`1000`, producing `A250829C00001000`. -/
theorem c4_roundtrip_counterexample :
    reencode_occ_symbol "A250829C00001001".toList = PyRet.val "A250829C00001000".toList ∧
    "A250829C00001000".toList ≠ "A250829C00001001".toList :=
  ⟨by decide, by decide⟩

/-- Claim C4 (amended): `encode(decode(s)) = s` for every syntactically valid
fixed-width symbol — upper-case digit-free underlying, valid `YYMMDD` date
under the `%y` pivot, type `C` or `P`, eight-digit strike field — whose strike
field is a multiple of 125 thousandths (the strikes exactly representable in
binary64, which covers all exchange-listed strike increments). -/
theorem c4_roundtrip_amended
    (u : List Char) (huU : pyUpper u = u) (hu : ∀ c ∈ u, isDigitC c = false)
    (yy m d : ℕ) (hyy : yy < 100) (hm1 : 1 ≤ m) (hm2 : m ≤ 12)
    (hd1 : 1 ≤ d) (hd2 : d ≤ daysInMonth (pivotYear yy) m)
    (T : Char) (hT : T = 'C' ∨ T = 'P')
    (k : ℕ) (h125 : 125 ∣ k) (hk : k < 100000000) :
    reencode_occ_symbol (u ++ pad2 yy ++ pad2 m ++ pad2 d ++ T :: pad8 k) =
      PyRet.val (u ++ pad2 yy ++ pad2 m ++ pad2 d ++ T :: pad8 k) := by
  obtain ⟨hp1, hp2⟩ := pivotYear_lt yy hyy
  have hb : k < 2 ^ 56 := by
    have : (2 : ℕ) ^ 56 = 72057594037927936 := by norm_num
    omega
  have hstrike : fl (((k : ℕ) : ℚ) / 1000) = (k : ℚ) / 1000 :=
    fl_div1000_of_dvd h125 hb
  rw [reencode_occ_symbol, parse_built hu hyy hm1 hm2 hd1 hd2 T hk]
  have htC : pyUpper ['C'] = ['C'] := rfl
  have htP : pyUpper ['P'] = ['P'] := rfl
  rcases hT with rfl | rfl
  · show create_occ_symbolQ u (isoOf (pivotYear yy) m d) ['C']
        (PyFloat.finite (fl (((k : ℕ) : ℚ) / 1000))) =
      PyRet.val (u ++ pad2 yy ++ pad2 m ++ pad2 d ++ 'C' :: pad8 k)
    rw [hstrike, create_built hp1 hp2 hm1 hm2 hd1 hd2 (Or.inl htC) h125 hk,
      huU, pivotYear_mod yy hyy]
    simp [htC]
  · show create_occ_symbolQ u (isoOf (pivotYear yy) m d) ['P']
        (PyFloat.finite (fl (((k : ℕ) : ℚ) / 1000))) =
      PyRet.val (u ++ pad2 yy ++ pad2 m ++ pad2 d ++ 'P' :: pad8 k)
    rw [hstrike, create_built hp1 hp2 hm1 hm2 hd1 hd2 (Or.inr htP) h125 hk,
      huU, pivotYear_mod yy hyy]
    simp [htP]

/-- Claim C4 witness: the amended round trip at `HOG250829C00027000`. -/
theorem c4_roundtrip_amended_witness :
    reencode_occ_symbol ("HOG".toList ++ pad2 25 ++ pad2 8 ++ pad2 29 ++ 'C' :: pad8 27000) =
      PyRet.val ("HOG".toList ++ pad2 25 ++ pad2 8 ++ pad2 29 ++ 'C' :: pad8 27000) :=
  c4_roundtrip_amended "HOG".toList (by decide) (by decide) 25 8 29 (by decide) (by decide)
    (by decide) (by decide) (by decide) 'C' (by decide) 27000 (by decide) (by decide)

set_option maxRecDepth 1000000 in
unseal Rat.add Rat.mul Rat.sub Rat.inv in
/-- Claim C5, counterexample: negative strikes are not rejected.
`Encode("goog","2024-12-20","C","-5")` returns the malformed symbol
`GOOG241220C-0005000`: `f"{-5000:08d}"` zero-pads the signed value instead of
raising, and only `float()`'s `ValueError` is caught. -/
theorem c5_strike_counterexample :
    create_occ_symbol "goog".toList "2024-12-20".toList "C".toList "-5".toList =
      PyRet.val "GOOG241220C-0005000".toList := by decide

set_option maxRecDepth 1000000 in
unseal Rat.add Rat.mul Rat.sub Rat.inv in
/-- Claim C5 (amended): a strike of 0 is accepted and encodes as the field
`00000000` — in particular `Encode("goog","2024-12-20","C","0")` is
`GOOG241220C00000000` — but negative strikes are not rejected: with a valid
date and type, every finite strike whose value times 1000 stays inside the
binary64 finite range yields a symbol (a negative one gets a sign-bearing
strike field).  Only the non-finite strikes fail, and not both as errors: a
NaN strike returns `None` via the caught `ValueError` from `int()`, while an
infinite strike raises an uncaught `OverflowError`. -/
theorem c5_strike_amended :
    (∀ (u dateStr typeStr : List Char) (q : ℚ) (y m d : ℕ),
      pyStrptimeYMD dateStr = some (y, m, d) →
      (pyUpper typeStr = ['C'] ∨ pyUpper typeStr = ['P']) →
      -ovfl < q * 1000 → q * 1000 < ovfl →
      ∃ out, create_occ_symbolQ u dateStr typeStr (PyFloat.finite q) = PyRet.val out) ∧
    (∀ (u dateStr typeStr : List Char) (ymd : ℕ × ℕ × ℕ),
      pyStrptimeYMD dateStr = some ymd →
      create_occ_symbolQ u dateStr typeStr PyFloat.nan = PyRet.none) ∧
    (∀ (u dateStr typeStr : List Char) (s : Bool) (ymd : ℕ × ℕ × ℕ),
      pyStrptimeYMD dateStr = some ymd →
      create_occ_symbolQ u dateStr typeStr (PyFloat.inf s) = PyRet.raised) ∧
    create_occ_symbol "goog".toList "2024-12-20".toList "C".toList "0".toList =
      PyRet.val "GOOG241220C00000000".toList :=
  ⟨fun u dateStr typeStr q y m d hdate ht hq1 hq2 =>
    ⟨_, create_val_of_valid u dateStr typeStr q hdate ht hq1 hq2⟩,
   fun u dateStr typeStr _ hdate => createQ_nan_none u dateStr typeStr hdate,
   fun u dateStr typeStr s _ hdate => createQ_inf_raised u dateStr typeStr s hdate,
   by decide⟩

set_option maxRecDepth 1000000 in
unseal Rat.add Rat.mul Rat.sub Rat.inv in
/-- Claim C5 witness: the amended no-rejection property at the negative strike
`-5`. -/
theorem c5_strike_amended_witness :
    (-ovfl < (-5 : ℚ) * 1000 ∧ (-5 : ℚ) * 1000 < ovfl) ∧
    ∃ out, create_occ_symbolQ "X".toList "2024-12-20".toList "C".toList
      (PyFloat.finite (-5)) = PyRet.val out :=
  ⟨⟨by decide, by decide⟩,
   c5_strike_amended.1 "X".toList "2024-12-20".toList "C".toList (-5) 2024 12 20
     (by decide) (Or.inl (by decide)) (by decide) (by decide)⟩

set_option maxRecDepth 1000000 in
unseal Rat.add Rat.mul Rat.sub Rat.inv in
/-- Claim C6, counterexample: the date string `2024-1-5` does not match the
fixed-width `YYYY-MM-DD` format, yet `strptime` accepts unpadded month and day
fields and `Encode("AMD","2024-1-5","C","150")` produces a symbol. -/
theorem c6_reject_counterexample :
    create_occ_symbol "AMD".toList "2024-1-5".toList "C".toList "150".toList =
      PyRet.val "AMD240105C00150000".toList := by decide

/-- Claim C6 (amended): a date string not accepted by `strptime("%Y-%m-%d")` —
a four-digit year, one-or-two-digit month and day separated by hyphens,
forming a real calendar date; strict zero-padded `YYYY-MM-DD` is not required
— always returns `None` (the date is checked before the strike is touched);
and for every type value whose upper-casing is not `C` or `P` no symbol is
ever produced, though not always via an error return: the strike is converted
before the type check, so an infinite or overflowing strike raises an uncaught
`OverflowError` there instead of returning `None`. -/
theorem c6_reject_amended :
    (∀ u dateStr typeStr strike : List Char, pyStrptimeYMD dateStr = none →
      create_occ_symbol u dateStr typeStr strike = PyRet.none) ∧
    (∀ (u dateStr typeStr strike : List Char) (ymd : ℕ × ℕ × ℕ),
      pyStrptimeYMD dateStr = some ymd →
      ¬(pyUpper typeStr = ['C'] ∨ pyUpper typeStr = ['P']) →
      ∀ out, create_occ_symbol u dateStr typeStr strike ≠ PyRet.val out) ∧
    (∀ (u dateStr typeStr : List Char) (f : PyFloat) (ymd : ℕ × ℕ × ℕ),
      pyStrptimeYMD dateStr = some ymd →
      ¬(pyUpper typeStr = ['C'] ∨ pyUpper typeStr = ['P']) →
      ∀ out, create_occ_symbolQ u dateStr typeStr f ≠ PyRet.val out) :=
  ⟨fun u dateStr typeStr strike hdate => create_none_of_bad_date u dateStr typeStr strike hdate,
   fun u dateStr typeStr strike _ hdate ht =>
     create_no_val_of_bad_type u dateStr typeStr strike hdate ht,
   fun u dateStr typeStr f _ hdate ht => createQ_no_val_of_bad_type u dateStr typeStr f hdate ht⟩

/-- Claim C6 witness: the amended rejection at the invalid type `X`. -/
theorem c6_reject_amended_witness :
    create_occ_symbol "NVDA".toList "2024-06-21".toList "X".toList "500".toList ≠
      PyRet.val "NVDA240621X00500000".toList :=
  c6_reject_amended.2.1 "NVDA".toList "2024-06-21".toList "X".toList "500".toList
    (2024, 6, 21) (by decide) (by decide) "NVDA240621X00500000".toList

set_option maxRecDepth 1000000 in
unseal Rat.add Rat.mul Rat.sub Rat.inv in
/-- Claim C7, counterexample: the selected strike does not always minimize the
exact absolute distance, because the code computes `abs(strikes[i] - last_price)`
in binary64.  For the strikes 5.4 and 5.5 (as the doubles `fl (27/5)` and
`11/2`) and reference price `2^54`, both rounded distances collapse to the
same double, `min` keeps the first index, and the selection is 5.4 — although
5.5 is strictly closer to the reference and the exact distances do not tie. -/
theorem c7_strike_counterexample :
    ([fl (27 / 5), 11 / 2] : List ℚ).Sorted (· < ·) ∧
    suggested_strike [fl (27 / 5), 11 / 2] (2 ^ 54) = fl (27 / 5) ∧
    |(11 / 2 : ℚ) - 2 ^ 54| < |fl (27 / 5) - 2 ^ 54| ∧
    fl (27 / 5) ≠ (11 / 2 : ℚ) :=
  ⟨by decide, by decide, by decide, by decide⟩

set_option maxRecDepth 1000000 in
unseal Rat.add Rat.mul Rat.sub Rat.inv in
/-- Claim C7 (amended): for every non-empty strictly ascending list of strikes
and every reference price, the selected default strike is a member of the list
minimizing the binary64-rounded absolute distance `|fl (strike - ref)|` — the
quantity the code computes — with ties in that rounded distance broken by the
lower strike (the first occurrence in ascending order); in particular for
strikes `[5, 10, 15, 20]` and reference `12` the selection is `10`.  The exact
absolute distance is not always minimized: distinct strikes can share the same
rounded distance. -/
theorem c7_strike_amended (strikes : List ℚ) (ref : ℚ) (hne : strikes ≠ [])
    (hsort : strikes.Sorted (· < ·)) :
    suggested_strike [5, 10, 15, 20] 12 = 10 ∧
    suggested_strike strikes ref ∈ strikes ∧
    (∀ x ∈ strikes, |fl (suggested_strike strikes ref - ref)| ≤ |fl (x - ref)|) ∧
    (∀ x ∈ strikes, |fl (x - ref)| = |fl (suggested_strike strikes ref - ref)| →
      suggested_strike strikes ref ≤ x) := by
  obtain ⟨h1, h2, h3⟩ := suggested_strike_spec strikes ref hne hsort
  exact ⟨by decide, h1, h2, h3⟩

set_option maxRecDepth 1000000 in
unseal Rat.add Rat.mul Rat.sub Rat.inv in
/-- Claim C7 witness: the amended selection properties at strikes
`[5, 10, 15, 20]` with reference price `12`. -/
theorem c7_strike_amended_witness :
    suggested_strike [5, 10, 15, 20] 12 = 10 ∧
    suggested_strike [5, 10, 15, 20] 12 ∈ ([5, 10, 15, 20] : List ℚ) ∧
    (∀ x ∈ ([5, 10, 15, 20] : List ℚ),
      |fl (suggested_strike [5, 10, 15, 20] 12 - 12)| ≤ |fl (x - 12)|) ∧
    (∀ x ∈ ([5, 10, 15, 20] : List ℚ),
      |fl (x - 12)| = |fl (suggested_strike [5, 10, 15, 20] 12 - 12)| →
      suggested_strike [5, 10, 15, 20] 12 ≤ x) :=
  c7_strike_amended [5, 10, 15, 20] 12 (by decide) (by decide)

/-- Claim C8: a newly initiated order's position intent is `close` exactly
when it is a Buy against a net-short position or a Sell against a net-long
position in the target symbol (first match in the positions list, else `0`),
and `open` in every other combination; the round-trip block runs exactly on a
`FILLED` outcome with intent `open`, so a fill classified `close` never
triggers it. -/
theorem c8_position_intent (action : Char) (positions : List (String × ℚ)) (target : String) :
    (computePositionIntent action (lookupPositionQty positions target) = "close" ↔
      ((action = 'B' ∧ lookupPositionQty positions target < 0) ∨
       (action = 'S' ∧ lookupPositionQty positions target > 0))) ∧
    (computePositionIntent action (lookupPositionQty positions target) = "close" ∨
     computePositionIntent action (lookupPositionQty positions target) = "open") ∧
    (∀ st i, runsRoundTrip st i = true ↔ (st = "FILLED" ∧ i = "open")) ∧
    (∀ st, runsRoundTrip st "close" = false) := by
  refine ⟨?_, ?_, ?_, ?_⟩
  · rw [computePositionIntent]
    split_ifs with h1 h2
    · simp [h1]
    · simp [h2]
    · constructor
      · intro h
        exact absurd h (by decide)
      · intro h
        rcases h with h | h
        · exact absurd h h1
        · exact absurd h h2
  · rw [computePositionIntent]
    split_ifs <;> simp
  · intro st i
    rw [runsRoundTrip]
    simp [Bool.and_eq_true, beq_iff_eq]
  · intro st
    rw [runsRoundTrip]
    simp

/-- Claim C9: for an option-chain response of the shape the monitoring loop
itself reads — per-symbol quotes nested under a `"snapshots"` map whose quote
key is `"latestQuote"`, the filled symbol not being a top-level data key —
the closing-order branch of `place_and_monitor_order` reads
`chain_response.get("data", {})` in place of the snapshots map, finds no
snapshot with a `"quote"` key for the filled symbol, and aborts before the
closing-price prompt, while the monitoring loop's own read finds the quote. -/
theorem c9_closing_branch (r : JVal) (dfs m : List (String × JVal)) (snap q : JVal)
    (occ : String)
    (hsucc : jGet r "success" = some (JVal.bool true))
    (hdata : jGet r "data" = some (JVal.obj dfs))
    (hsnaps : jLookup dfs "snapshots" = some (JVal.obj m))
    (hocc : jLookup m occ = some snap)
    (hq : jGet snap "latestQuote" = some q)
    (hnotop : jLookup dfs occ = none) :
    closingBranchReachesPrompt r occ = false ∧ monitorLatestQuote r occ = q := by
  constructor
  · rw [closingBranchReachesPrompt]
    simp only [hsucc, pyTruthyOpt, pyTruthy, hdata, Option.getD_some, jGet_obj, hnotop]
    rw [if_neg (by decide)]
  · rw [monitorLatestQuote]
    simp only [hdata, Option.getD_some, jGet_obj, hsnaps, hocc, hq]

/-- Claim C9 witness: a concrete snapshots-shaped chain response for
`HOG250829C00027000`. -/
theorem c9_closing_branch_witness :
    closingBranchReachesPrompt
      (JVal.obj [("success", JVal.bool true),
        ("data", JVal.obj [("snapshots", JVal.obj [("HOG250829C00027000",
          JVal.obj [("latestQuote", JVal.obj [("bp", JVal.num 1), ("ap", JVal.num 2)])])])])])
      "HOG250829C00027000" = false ∧
    monitorLatestQuote
      (JVal.obj [("success", JVal.bool true),
        ("data", JVal.obj [("snapshots", JVal.obj [("HOG250829C00027000",
          JVal.obj [("latestQuote", JVal.obj [("bp", JVal.num 1), ("ap", JVal.num 2)])])])])])
      "HOG250829C00027000" = JVal.obj [("bp", JVal.num 1), ("ap", JVal.num 2)] :=
  c9_closing_branch _
    [("snapshots", JVal.obj [("HOG250829C00027000",
      JVal.obj [("latestQuote", JVal.obj [("bp", JVal.num 1), ("ap", JVal.num 2)])])])]
    [("HOG250829C00027000",
      JVal.obj [("latestQuote", JVal.obj [("bp", JVal.num 1), ("ap", JVal.num 2)])])]
    (JVal.obj [("latestQuote", JVal.obj [("bp", JVal.num 1), ("ap", JVal.num 2)])])
    (JVal.obj [("bp", JVal.num 1), ("ap", JVal.num 2)])
    "HOG250829C00027000" rfl rfl rfl rfl rfl rfl

/-- Claim C2: when the user issues an adjust command while the broker-reported
status is in the non-replaceable set and enters a numeric price, the monitor
issues a cancel for the existing order, polls its status until the broker
reports `canceled` (no earlier poll having reported it), and only then issues
a place call for a new order with the same symbol, quantity and side at the
new price, updating the tracked id to the new order's id; no replace call
occurs anywhere on this path. -/
theorem c2_cancel_and_replace (ord : TrackedOrder) (p : ParsedOption) (st : String)
    (rawInput : List Char) (v : PyFloat) (polls : ℕ → Option String) (fuel n : ℕ)
    (newId : String) (replaceResult : Option (Option String))
    (hp : parse_occ_symbol ord.symbol = some p)
    (hst : st ∈ nonReplaceableStatuses)
    (hv : pyFloatVal (pyLower rawInput) = some v)
    (hw : waitCancel polls fuel 0 = some n) :
    handleAdjust ord (some st) rawInput true polls fuel (some newId) replaceResult =
      some ([ApiCall.getOrder ord.id, ApiCall.getOptionChain p.underlying,
          ApiCall.cancelOrder ord.id] ++ cancelPollTrace ord.id n ++
          [ApiCall.placeOrder ord.symbol ord.quantity ord.side v],
        { ord with id := newId, price := v }) ∧
    polls n = some "canceled" ∧
    (∀ j, j < n → polls j ≠ some "canceled") ∧
    ∀ oid pr, ApiCall.replaceOrder oid pr ∉
      ([ApiCall.getOrder ord.id, ApiCall.getOptionChain p.underlying,
        ApiCall.cancelOrder ord.id] ++ cancelPollTrace ord.id n ++
        [ApiCall.placeOrder ord.symbol ord.quantity ord.side v]) := by
  obtain ⟨-, hc, hnc⟩ := waitCancel_spec hw
  have hq : ¬(pyLower rawInput = ['q']) := by
    intro h
    rw [h] at hv
    have hnone : pyFloatVal ['q'] = none := by decide
    rw [hnone] at hv
    exact Option.noConfusion hv
  refine ⟨?_, hc, fun j hj => hnc j (by omega) hj, ?_⟩
  · rw [handleAdjust, hp]
    simp only [if_pos hst, if_neg hq, hv, hw]
    simp [List.append_assoc]
  · intro oid pr
    simp [cancelPollTrace, List.mem_replicate]

set_option maxRecDepth 1000000 in
unseal Rat.add Rat.mul Rat.sub Rat.inv in
/-- Claim C2 witness: a session on `HOG250829C00027000` whose status is
`accepted`, with new price `1.25` and cancellation confirmed on the third
poll. -/
theorem c2_cancel_and_replace_witness :
    handleAdjust
      { id := "ord-1", symbol := "HOG250829C00027000".toList, quantity := 2,
        side := "buy", action := 'B', price := PyFloat.finite 5 }
      (some "accepted") "1.25".toList true
      (fun j => if j < 2 then some "pending_cancel" else some "canceled") 5
      (some "ord-2") none =
      some ([ApiCall.getOrder "ord-1", ApiCall.getOptionChain "HOG".toList,
          ApiCall.cancelOrder "ord-1"] ++ cancelPollTrace "ord-1" 2 ++
          [ApiCall.placeOrder "HOG250829C00027000".toList 2 "buy"
            (PyFloat.finite (5 / 4))],
        { id := "ord-2", symbol := "HOG250829C00027000".toList, quantity := 2,
          side := "buy", action := 'B', price := PyFloat.finite (5 / 4) }) ∧
    (fun j => if j < 2 then some "pending_cancel" else some "canceled") 2 =
      some "canceled" ∧
    (∀ j, j < 2 →
      (fun j => if j < 2 then some "pending_cancel" else some "canceled") j ≠
        some "canceled") ∧
    ∀ oid pr, ApiCall.replaceOrder oid pr ∉
      ([ApiCall.getOrder "ord-1", ApiCall.getOptionChain "HOG".toList,
        ApiCall.cancelOrder "ord-1"] ++ cancelPollTrace "ord-1" 2 ++
        [ApiCall.placeOrder "HOG250829C00027000".toList 2 "buy"
          (PyFloat.finite (5 / 4))]) :=
  c2_cancel_and_replace
    { id := "ord-1", symbol := "HOG250829C00027000".toList, quantity := 2,
      side := "buy", action := 'B', price := PyFloat.finite 5 }
    { underlying := "HOG".toList, expiration_date := "2025-08-29".toList,
      type := ['c', 'a', 'l', 'l'], strike_price := PyFloat.finite 27 }
    "accepted" "1.25".toList (PyFloat.finite (5 / 4))
    (fun j => if j < 2 then some "pending_cancel" else some "canceled") 5 2
    "ord-2" none (by decide) (by decide) (by decide) (by decide)

/-- Claim C10: on the cancel-and-replace path, when the cancel succeeds and is
confirmed but the subsequent place call fails, the tracked order record is
left unchanged — its id still refers to the canceled order — and the
monitoring loop's next status check on a broker report of `canceled` returns
the terminal outcome `CANCELED`. -/
theorem c10_place_failure (ord : TrackedOrder) (p : ParsedOption) (st : String)
    (rawInput : List Char) (v : PyFloat) (polls : ℕ → Option String) (fuel n : ℕ)
    (replaceResult : Option (Option String))
    (hp : parse_occ_symbol ord.symbol = some p)
    (hst : st ∈ nonReplaceableStatuses)
    (hv : pyFloatVal (pyLower rawInput) = some v)
    (hw : waitCancel polls fuel 0 = some n) :
    handleAdjust ord (some st) rawInput true polls fuel none replaceResult =
      some ([ApiCall.getOrder ord.id, ApiCall.getOptionChain p.underlying,
          ApiCall.cancelOrder ord.id] ++ cancelPollTrace ord.id n ++
          [ApiCall.placeOrder ord.symbol ord.quantity ord.side v], ord) ∧
    monitorStatusCheck (some "canceled") = some "CANCELED" := by
  have hq : ¬(pyLower rawInput = ['q']) := by
    intro h
    rw [h] at hv
    have hnone : pyFloatVal ['q'] = none := by decide
    rw [hnone] at hv
    exact Option.noConfusion hv
  constructor
  · rw [handleAdjust, hp]
    simp only [if_pos hst, if_neg hq, hv, hw]
    simp [List.append_assoc]
  · decide

set_option maxRecDepth 1000000 in
unseal Rat.add Rat.mul Rat.sub Rat.inv in
/-- Claim C10 witness: the same session as the C2 witness, with the place call
failing. -/
theorem c10_place_failure_witness :
    handleAdjust
      { id := "ord-1", symbol := "HOG250829C00027000".toList, quantity := 2,
        side := "buy", action := 'B', price := PyFloat.finite 5 }
      (some "accepted") "1.25".toList true
      (fun j => if j < 2 then some "pending_cancel" else some "canceled") 5
      none none =
      some ([ApiCall.getOrder "ord-1", ApiCall.getOptionChain "HOG".toList,
          ApiCall.cancelOrder "ord-1"] ++ cancelPollTrace "ord-1" 2 ++
          [ApiCall.placeOrder "HOG250829C00027000".toList 2 "buy"
            (PyFloat.finite (5 / 4))],
        { id := "ord-1", symbol := "HOG250829C00027000".toList, quantity := 2,
          side := "buy", action := 'B', price := PyFloat.finite 5 }) ∧
    monitorStatusCheck (some "canceled") = some "CANCELED" :=
  c10_place_failure
    { id := "ord-1", symbol := "HOG250829C00027000".toList, quantity := 2,
      side := "buy", action := 'B', price := PyFloat.finite 5 }
    { underlying := "HOG".toList, expiration_date := "2025-08-29".toList,
      type := ['c', 'a', 'l', 'l'], strike_price := PyFloat.finite 27 }
    "accepted" "1.25".toList (PyFloat.finite (5 / 4))
    (fun j => if j < 2 then some "pending_cancel" else some "canceled") 5 2
    none (by decide) (by decide) (by decide) (by decide)
